import Mathlib

set_option maxHeartbeats 1000000
set_option maxRecDepth 8000

/-!
# Verification of the GAME Orca evaluator pipeline

A shallow embedding of the evaluator's request/response pipeline:

* `evaluator_content_handler.py` (Test_setChr8_Evaluator): the transport retry
  loop `_make_request_with_retry`, the format negotiator `negotiate_formats`,
  and the response decoder `deserialize_response`;
* `evaluator_RestAPI.py` (Test_setChr9_Evaluator): the run orchestrator
  `run_evaluator` and its `__main__` exit-code mapping;
* the wire codecs the handler calls: `msgpack.packb` / `msgpack.unpackb`
  (with the `msgpack_numpy` patch active, `use_bin_type=True`, `raw=False`)
  and the standard-library `json` module, modelled at the byte level.

Python values that can travel over this pipeline are embedded as `JValue`;
machine bytes are `Nat` values below 256; Python `float`s are carried as
their IEEE-754 binary64 bit patterns, so no floating-point arithmetic is
modelled (only bit patterns and NaN classification).  Effects (HTTP calls,
filesystem writes, stderr output) become explicit event lists, and Python
exceptions become an `Except` outcome that the `__main__` model maps to a
process exit code exactly as the source does.
-/

/-! ## Byte-level helpers: big-endian integers -/

/-- Big-endian encoding of `n` into exactly `k` bytes (most significant
first). Faithful to how `msgpack` lays out its fixed-width integers. -/
def beBytes : Nat → Nat → List Nat
  | 0, _ => []
  | k + 1, n => beBytes k (n / 256) ++ [n % 256]

/-- Read a big-endian integer from exactly the listed bytes. -/
def fromBE (bs : List Nat) : Nat := bs.foldl (fun acc b => acc * 256 + b) 0

/-- Split off the first `n` bytes of a stream, failing if too short. -/
def readBytes (n : Nat) (bs : List Nat) : Option (List Nat × List Nat) :=
  if n ≤ bs.length then some (bs.take n, bs.drop n) else none

theorem beBytes_length (k n : Nat) : (beBytes k n).length = k := by
  induction k generalizing n with
  | zero => rfl
  | succ k ih => simp [beBytes, ih]

theorem fromBE_append_last (bs : List Nat) (b : Nat) :
    fromBE (bs ++ [b]) = fromBE bs * 256 + b := by
  simp [fromBE, List.foldl_append]

theorem fromBE_beBytes (k n : Nat) (h : n < 256 ^ k) :
    fromBE (beBytes k n) = n := by
  induction k generalizing n with
  | zero =>
    simp [beBytes, fromBE]
    omega
  | succ k ih =>
    have hdiv : n / 256 < 256 ^ k := by
      have : 256 ^ (k + 1) = 256 ^ k * 256 := by ring
      omega
    simp [beBytes, fromBE_append_last, ih (n / 256) hdiv]
    omega

theorem readBytes_exact (xs rest : List Nat) (n : Nat) (h : xs.length = n) :
    readBytes n (xs ++ rest) = some (xs, rest) := by
  subst h
  simp [readBytes, List.take_left, List.drop_left]

/-! ## UTF-8, as Python encodes `str` payloads

`utf8EncodeChar` is the standard UTF-8 layout; every Lean `Char` is a Unicode
scalar value, so encoding is total (Python `str.encode("utf-8")` only fails
on surrogates, which `Char` excludes).  `utf8DecodeAll` is a strict decoder:
it rejects stray continuation bytes, surrogate code points and out-of-range
values, as Python's strict `bytes.decode("utf-8")` does (overlong-form
rejection is not modelled; the encoder never produces overlong forms). -/

def utf8EncodeChar (c : Char) : List Nat :=
  let n := c.toNat
  if n < 0x80 then [n]
  else if n < 0x800 then [0xC0 + n / 64, 0x80 + n % 64]
  else if n < 0x10000 then
    [0xE0 + n / 4096, 0x80 + (n / 64) % 64, 0x80 + n % 64]
  else
    [0xF0 + n / 262144, 0x80 + (n / 4096) % 64, 0x80 + (n / 64) % 64, 0x80 + n % 64]

/-- UTF-8 encoding of a whole string. -/
def utf8Str (s : String) : List Nat := s.data.flatMap utf8EncodeChar

/-- Is `n` a Unicode scalar value (valid `Char`)? -/
def scalarOk (n : Nat) : Bool :=
  (n < 0xD800 || (0xDFFF < n && n < 0x110000))

/-- Decode one UTF-8 sequence starting with lead byte `b`, the remaining
stream being `bs`; returns the decoded character and the unconsumed rest. -/
def utf8DecodeOne (b : Nat) (bs : List Nat) : Option (Char × List Nat) :=
  if b < 0x80 then some (Char.ofNat b, bs)
  else if b < 0xC2 then none
  else if b < 0xE0 then
    match bs with
    | b1 :: rest =>
      if 0x80 ≤ b1 && b1 < 0xC0 then
        some (Char.ofNat ((b - 0xC0) * 64 + (b1 - 0x80)), rest)
      else none
    | [] => none
  else if b < 0xF0 then
    match bs with
    | b1 :: b2 :: rest =>
      if 0x80 ≤ b1 && b1 < 0xC0 && (0x80 ≤ b2 && b2 < 0xC0) then
        let n := (b - 0xE0) * 4096 + (b1 - 0x80) * 64 + (b2 - 0x80)
        if 0x800 ≤ n && scalarOk n then some (Char.ofNat n, rest) else none
      else none
    | _ => none
  else if b < 0xF5 then
    match bs with
    | b1 :: b2 :: b3 :: rest =>
      if 0x80 ≤ b1 && b1 < 0xC0 && (0x80 ≤ b2 && b2 < 0xC0) &&
          (0x80 ≤ b3 && b3 < 0xC0) then
        let n := (b - 0xF0) * 262144 + (b1 - 0x80) * 4096 +
          (b2 - 0x80) * 64 + (b3 - 0x80)
        if 0x10000 ≤ n && n < 0x110000 then some (Char.ofNat n, rest) else none
      else none
    | _ => none
  else none

/-- Fueled UTF-8 decode driver; one unit of fuel per decoded character
(every character consumes at least one byte, so `bs.length` fuel suffices). -/
def utf8DecodeAux : Nat → List Nat → Option (List Char)
  | _, [] => some []
  | 0, _ :: _ => none
  | fuel + 1, b :: bs =>
    match utf8DecodeOne b bs with
    | some (c, rest) => (utf8DecodeAux fuel rest).map (fun cs => c :: cs)
    | none => none

/-- Decode an entire byte list as UTF-8 text. -/
def utf8DecodeAll (bs : List Nat) : Option (List Char) :=
  utf8DecodeAux bs.length bs

theorem char_toNat_lt (c : Char) : c.toNat < 0x110000 := by
  have h := c.valid
  have hn : c.toNat = c.val.toNat := rfl
  rw [hn]
  rcases h with h | h
  · exact Nat.lt_trans h (by norm_num)
  · exact h.2

theorem char_scalarOk (c : Char) : scalarOk c.toNat = true := by
  have h := c.valid
  have hn : c.toNat = c.val.toNat := rfl
  simp only [scalarOk, hn, Bool.or_eq_true, decide_eq_true_eq, Bool.and_eq_true]
  rcases h with h | h
  · exact Or.inl h
  · exact Or.inr ⟨by simpa using h.1, h.2⟩

theorem utf8DecodeOne_encodeChar (c : Char) (bs : List Nat) :
    ∃ b tail, utf8EncodeChar c = b :: tail ∧
      utf8DecodeOne b (tail ++ bs) = some (c, bs) := by
  have hval := char_scalarOk c
  have hlt := char_toNat_lt c
  have hscal : (c.toNat < 0xD800 ∨ (0xDFFF < c.toNat ∧ c.toNat < 0x110000)) := by
    simpa [scalarOk, Bool.or_eq_true, Bool.and_eq_true, decide_eq_true_eq] using hval
  unfold utf8EncodeChar
  by_cases h1 : c.toNat < 0x80
  · refine ⟨c.toNat, [], by simp [h1], ?_⟩
    simp only [utf8DecodeOne, h1, if_true, List.nil_append, Char.ofNat_toNat]
  · by_cases h2 : c.toNat < 0x800
    · refine ⟨0xC0 + c.toNat / 64, [0x80 + c.toNat % 64], by simp [h1, h2], ?_⟩
      unfold utf8DecodeOne
      have hb0 : ¬ (0xC0 + c.toNat / 64 < 0x80) := by omega
      have hb1 : ¬ (0xC0 + c.toNat / 64 < 0xC2) := by omega
      have hb2 : 0xC0 + c.toNat / 64 < 0xE0 := by omega
      have hc1 : (0x80 ≤ 0x80 + c.toNat % 64 && 0x80 + c.toNat % 64 < 0xC0) = true := by
        simp only [Bool.and_eq_true, decide_eq_true_eq]
        omega
      simp only [hb0, if_false, hb1, hb2, if_true, List.cons_append, List.nil_append, hc1]
      have heq : (0xC0 + c.toNat / 64 - 0xC0) * 64 + (0x80 + c.toNat % 64 - 0x80)
          = c.toNat := by omega
      rw [heq, Char.ofNat_toNat]
    · by_cases h3 : c.toNat < 0x10000
      · refine ⟨0xE0 + c.toNat / 4096,
          [0x80 + (c.toNat / 64) % 64, 0x80 + c.toNat % 64], by simp [h1, h2, h3], ?_⟩
        unfold utf8DecodeOne
        have hb0 : ¬ (0xE0 + c.toNat / 4096 < 0x80) := by omega
        have hb1 : ¬ (0xE0 + c.toNat / 4096 < 0xC2) := by omega
        have hb2 : ¬ (0xE0 + c.toNat / 4096 < 0xE0) := by omega
        have hb3 : 0xE0 + c.toNat / 4096 < 0xF0 := by omega
        have hc1 : (0x80 ≤ 0x80 + c.toNat / 64 % 64 && 0x80 + c.toNat / 64 % 64 < 0xC0 &&
            (0x80 ≤ 0x80 + c.toNat % 64 && 0x80 + c.toNat % 64 < 0xC0)) = true := by
          simp only [Bool.and_eq_true, decide_eq_true_eq]
          omega
        simp only [hb0, hb1, hb2, hb3, if_false, if_true, List.cons_append,
          List.nil_append, hc1]
        have heq : (0xE0 + c.toNat / 4096 - 0xE0) * 4096 +
            (0x80 + c.toNat / 64 % 64 - 0x80) * 64 + (0x80 + c.toNat % 64 - 0x80)
            = c.toNat := by omega
        rw [heq]
        have hge : (0x800 ≤ c.toNat && scalarOk c.toNat) = true := by
          simp only [Bool.and_eq_true, decide_eq_true_eq, hval, and_true]
          omega
        simp only [hge, if_true, Char.ofNat_toNat]
      · refine ⟨0xF0 + c.toNat / 262144,
          [0x80 + (c.toNat / 4096) % 64, 0x80 + (c.toNat / 64) % 64, 0x80 + c.toNat % 64],
          by simp [h1, h2, h3], ?_⟩
        unfold utf8DecodeOne
        have hb0 : ¬ (0xF0 + c.toNat / 262144 < 0x80) := by omega
        have hb1 : ¬ (0xF0 + c.toNat / 262144 < 0xC2) := by omega
        have hb2 : ¬ (0xF0 + c.toNat / 262144 < 0xE0) := by omega
        have hb3 : ¬ (0xF0 + c.toNat / 262144 < 0xF0) := by omega
        have hb4 : 0xF0 + c.toNat / 262144 < 0xF5 := by omega
        have hc1 : (0x80 ≤ 0x80 + c.toNat / 4096 % 64 && 0x80 + c.toNat / 4096 % 64 < 0xC0 &&
            (0x80 ≤ 0x80 + c.toNat / 64 % 64 && 0x80 + c.toNat / 64 % 64 < 0xC0) &&
            (0x80 ≤ 0x80 + c.toNat % 64 && 0x80 + c.toNat % 64 < 0xC0)) = true := by
          simp only [Bool.and_eq_true, decide_eq_true_eq]
          omega
        simp only [hb0, hb1, hb2, hb3, hb4, if_false, if_true, List.cons_append,
          List.nil_append, hc1]
        have heq : (0xF0 + c.toNat / 262144 - 0xF0) * 262144 +
            (0x80 + c.toNat / 4096 % 64 - 0x80) * 4096 +
            (0x80 + c.toNat / 64 % 64 - 0x80) * 64 + (0x80 + c.toNat % 64 - 0x80)
            = c.toNat := by omega
        rw [heq]
        have hge : (0x10000 ≤ c.toNat && c.toNat < 0x110000) = true := by
          simp only [Bool.and_eq_true, decide_eq_true_eq]
          omega
        simp only [hge, if_true, Char.ofNat_toNat]

theorem utf8DecodeAux_flatMap (cs : List Char) :
    ∀ fuel, cs.length ≤ fuel →
      utf8DecodeAux fuel (cs.flatMap utf8EncodeChar) = some cs := by
  induction cs with
  | nil => intro fuel _; cases fuel <;> rfl
  | cons c cs ih =>
    intro fuel hfuel
    obtain ⟨b, tail, henc, hdec⟩ := utf8DecodeOne_encodeChar c (cs.flatMap utf8EncodeChar)
    cases fuel with
    | zero => simp at hfuel
    | succ fuel =>
      have hlen : cs.length ≤ fuel := by simpa using hfuel
      simp only [List.flatMap_cons, henc, List.cons_append, utf8DecodeAux, hdec,
        ih fuel hlen, Option.map_some]
      rfl

theorem utf8EncodeChar_length_pos (c : Char) : 1 ≤ (utf8EncodeChar c).length := by
  simp only [utf8EncodeChar]
  repeat' split
  all_goals simp

theorem length_le_flatMap_utf8 (cs : List Char) :
    cs.length ≤ (cs.flatMap utf8EncodeChar).length := by
  induction cs with
  | nil => simp
  | cons c cs ih =>
    simp only [List.flatMap_cons, List.length_cons, List.length_append]
    have := utf8EncodeChar_length_pos c
    omega

theorem utf8DecodeAll_utf8Str (s : String) :
    utf8DecodeAll (utf8Str s) = some s.data := by
  unfold utf8DecodeAll utf8Str
  exact utf8DecodeAux_flatMap s.data _ (length_le_flatMap_utf8 s.data)

/-- Python `str.lower()` (ASCII case folding, which covers every string
this pipeline compares). -/
def pyLower (s : String) : String := String.mk (s.data.map Char.toLower)

/-! ## The value model

`JValue` embeds the Python values that flow through the pipeline:
JSON scalars/containers, `bytes` objects, IEEE-754 binary64 floats carried
as bit patterns, and `numpy` arrays carried as (dtype string, shape, raw
data bytes) — exactly the triple `msgpack_numpy` serializes. -/

inductive JValue where
  | null
  | bool (b : Bool)
  | int (n : Int)
  | float (bits : Nat)
  | str (s : String)
  | bin (data : List Nat)
  | arr (xs : List JValue)
  | map (kvs : List (JValue × JValue))
  | ndarray (dtype : String) (shape : List Nat) (data : List Nat)

mutual

/-- Structural (Python `==`) equality on embedded values. -/
def jvalBeq : JValue → JValue → Bool
  | .null, .null => true
  | .bool a, .bool b => a == b
  | .int a, .int b => a == b
  | .float a, .float b => a == b
  | .str a, .str b => a == b
  | .bin a, .bin b => a == b
  | .arr xs, .arr ys => jlistBeq xs ys
  | .map xs, .map ys => jpairsBeq xs ys
  | .ndarray d1 s1 a1, .ndarray d2 s2 a2 => d1 == d2 && s1 == s2 && a1 == a2
  | _, _ => false

def jlistBeq : List JValue → List JValue → Bool
  | [], [] => true
  | x :: xs, y :: ys => jvalBeq x y && jlistBeq xs ys
  | _, _ => false

def jpairsBeq : List (JValue × JValue) → List (JValue × JValue) → Bool
  | [], [] => true
  | (k1, v1) :: xs, (k2, v2) :: ys => jvalBeq k1 k2 && jvalBeq v1 v2 && jpairsBeq xs ys
  | _, _ => false

end

mutual

theorem jvalBeq_refl : ∀ a : JValue, jvalBeq a a = true
  | .null => rfl
  | .bool a => by simp [jvalBeq]
  | .int a => by simp [jvalBeq]
  | .float a => by simp [jvalBeq]
  | .str a => by simp [jvalBeq]
  | .bin a => by simp [jvalBeq]
  | .arr xs => by simp [jvalBeq, jlistBeq_refl xs]
  | .map xs => by simp [jvalBeq, jpairsBeq_refl xs]
  | .ndarray d s a => by simp [jvalBeq]

theorem jlistBeq_refl : ∀ xs : List JValue, jlistBeq xs xs = true
  | [] => rfl
  | x :: xs => by simp [jlistBeq, jvalBeq_refl x, jlistBeq_refl xs]

theorem jpairsBeq_refl : ∀ xs : List (JValue × JValue), jpairsBeq xs xs = true
  | [] => rfl
  | (k, v) :: xs => by
    simp [jpairsBeq, jvalBeq_refl k, jvalBeq_refl v, jpairsBeq_refl xs]

end

mutual

theorem jvalBeq_eq : ∀ a b : JValue, jvalBeq a b = true → a = b
  | .null, .null, _ => rfl
  | .bool a, .bool b, h => by simp [jvalBeq] at h; simp [h]
  | .int a, .int b, h => by simp [jvalBeq] at h; simp [h]
  | .float a, .float b, h => by simp [jvalBeq] at h; simp [h]
  | .str a, .str b, h => by simp [jvalBeq] at h; simp [h]
  | .bin a, .bin b, h => by simp [jvalBeq] at h; simp [h]
  | .arr xs, .arr ys, h => by
    simp only [jvalBeq] at h
    simp [jlistBeq_eq xs ys h]
  | .map xs, .map ys, h => by
    simp only [jvalBeq] at h
    simp [jpairsBeq_eq xs ys h]
  | .ndarray d1 s1 a1, .ndarray d2 s2 a2, h => by
    simp [jvalBeq] at h
    simp [h.1.1, h.1.2, h.2]

theorem jlistBeq_eq : ∀ xs ys : List JValue, jlistBeq xs ys = true → xs = ys
  | [], [], _ => rfl
  | x :: xs, y :: ys, h => by
    simp only [jlistBeq, Bool.and_eq_true] at h
    rw [jvalBeq_eq x y h.1, jlistBeq_eq xs ys h.2]

theorem jpairsBeq_eq : ∀ xs ys : List (JValue × JValue), jpairsBeq xs ys = true → xs = ys
  | [], [], _ => rfl
  | (k1, v1) :: xs, (k2, v2) :: ys, h => by
    simp only [jpairsBeq, Bool.and_eq_true] at h
    rw [jvalBeq_eq k1 k2 h.1.1, jvalBeq_eq v1 v2 h.1.2, jpairsBeq_eq xs ys h.2]

end

instance : DecidableEq JValue := fun a b =>
  decidable_of_iff (jvalBeq a b = true)
    ⟨jvalBeq_eq a b, fun h => h ▸ jvalBeq_refl a⟩

/-- Python `dict.__setitem__`: overwrite keeps the original key position. -/
def dictSet (kvs : List (JValue × JValue)) (k v : JValue) : List (JValue × JValue) :=
  match kvs with
  | [] => [(k, v)]
  | (k0, v0) :: rest =>
    if k0 = k then (k0, v) :: rest else (k0, v0) :: dictSet rest k v

/-- Python `dict.get` / `in` on a duplicate-free association list. -/
def dictGet (kvs : List (JValue × JValue)) (k : JValue) : Option JValue :=
  match kvs with
  | [] => none
  | (k0, v0) :: rest => if k0 = k then some v0 else dictGet rest k

/-- Build a Python dict by inserting pairs left to right (how `json.loads`
and `msgpack.unpackb` construct decoded objects). -/
def buildDict (pairs : List (JValue × JValue)) : List (JValue × JValue) :=
  pairs.foldl (fun d kv => dictSet d kv.1 kv.2) []

theorem dictSet_append_fresh (acc : List (JValue × JValue)) (k v : JValue)
    (h : ∀ kv ∈ acc, kv.1 ≠ k) : dictSet acc k v = acc ++ [(k, v)] := by
  induction acc with
  | nil => rfl
  | cons kv0 rest ih =>
    have hk : kv0.1 ≠ k := h kv0 (by simp)
    cases kv0 with
    | mk k0 v0 =>
      simp only [dictSet, if_neg hk, List.cons_append, List.cons.injEq, true_and]
      exact ih (fun kv hkv => h kv (by simp [hkv]))

theorem buildDict_go (pairs acc : List (JValue × JValue))
    (hfresh : ∀ kv ∈ pairs, ∀ kv2 ∈ acc, kv2.1 ≠ kv.1)
    (hnodup : pairs.Pairwise (fun a b => a.1 ≠ b.1)) :
    pairs.foldl (fun d kv => dictSet d kv.1 kv.2) acc = acc ++ pairs := by
  induction pairs generalizing acc with
  | nil => simp
  | cons kv rest ih =>
    simp only [List.foldl_cons]
    rw [dictSet_append_fresh acc kv.1 kv.2 (fun kv2 h2 => hfresh kv (by simp) kv2 h2)]
    rw [ih (acc ++ [(kv.1, kv.2)])]
    · simp
    · intro kv2 h2 kv3 h3
      rcases List.mem_append.mp h3 with h3 | h3
      · exact hfresh kv2 (by simp [h2]) kv3 h3
      · have : kv3 = (kv.1, kv.2) := by simpa using h3
        subst this
        exact (List.pairwise_cons.mp hnodup).1 kv2 h2
    · exact (List.pairwise_cons.mp hnodup).2

/-- On a key-duplicate-free pair list, Python dict construction is the
identity. -/
theorem buildDict_nodup (pairs : List (JValue × JValue))
    (hnodup : pairs.Pairwise (fun a b => a.1 ≠ b.1)) :
    buildDict pairs = pairs := by
  unfold buildDict
  rw [buildDict_go pairs [] (by simp) hnodup]
  simp

/-! ## msgpack, as `msgpack.packb(..., use_bin_type=True)` /
`msgpack.unpackb(..., raw=False)` with the `msgpack_numpy` patch

The encoder follows the msgpack format choices of `msgpack.packb`:
smallest-width integer family, fixstr/str8/str16/str32, bin8/16/32,
fixarray/array16/array32, fixmap/map16/map32, float64 for Python floats.
Oversized values (e.g. integers outside the 64-bit families) make `packb`
raise, embedded as `none`.  `msgpack_numpy`'s `encode` hook turns an
`ndarray` into the dict `{b'nd': True, b'type': dtype.str, b'kind': b'',
b'shape': shape, b'data': tobytes()}` before packing; its `decode` object
hook reconstructs an array from any decoded dict whose `b'nd'` key is
`True`.  Extension/ext and float32 wire types are not produced by any of the
modelled encoders and are embedded as decode failures. -/

def encStrHeader (len : Nat) : Option (List Nat) :=
  if len < 32 then some [0xA0 + len]
  else if len < 256 then some [0xD9, len]
  else if len < 65536 then some (0xDA :: beBytes 2 len)
  else if len < 4294967296 then some (0xDB :: beBytes 4 len)
  else none

def encBinRaw (bs : List Nat) : Option (List Nat) :=
  if bs.length < 256 then some ([0xC4, bs.length] ++ bs)
  else if bs.length < 65536 then some ((0xC5 :: beBytes 2 bs.length) ++ bs)
  else if bs.length < 4294967296 then some ((0xC6 :: beBytes 4 bs.length) ++ bs)
  else none

def encStrRaw (s : String) : Option (List Nat) :=
  (encStrHeader (utf8Str s).length).map (fun h => h ++ utf8Str s)

def encIntRaw (n : Int) : Option (List Nat) :=
  if 0 ≤ n then
    if n.toNat < 128 then some [n.toNat]
    else if n.toNat < 256 then some [0xCC, n.toNat]
    else if n.toNat < 65536 then some (0xCD :: beBytes 2 n.toNat)
    else if n.toNat < 4294967296 then some (0xCE :: beBytes 4 n.toNat)
    else if n.toNat < 18446744073709551616 then some (0xCF :: beBytes 8 n.toNat)
    else none
  else
    if -32 ≤ n then some [(n + 256).toNat]
    else if -128 ≤ n then some [0xD0, (n + 256).toNat]
    else if -32768 ≤ n then some (0xD1 :: beBytes 2 (n + 65536).toNat)
    else if -2147483648 ≤ n then some (0xD2 :: beBytes 4 (n + 4294967296).toNat)
    else if -9223372036854775808 ≤ n then
      some (0xD3 :: beBytes 8 (n + 18446744073709551616).toNat)
    else none

def encFloatRaw (bits : Nat) : Option (List Nat) :=
  if bits < 18446744073709551616 then some (0xCB :: beBytes 8 bits) else none

def encArrHeader (len : Nat) : Option (List Nat) :=
  if len < 16 then some [0x90 + len]
  else if len < 65536 then some (0xDC :: beBytes 2 len)
  else if len < 4294967296 then some (0xDD :: beBytes 4 len)
  else none

def encMapHeader (len : Nat) : Option (List Nat) :=
  if len < 16 then some [0x80 + len]
  else if len < 65536 then some (0xDE :: beBytes 2 len)
  else if len < 4294967296 then some (0xDF :: beBytes 4 len)
  else none

/-- msgpack encoding of a short (< 256 byte) `bytes` key, as used for the
`msgpack_numpy` dict keys `b'nd'`, `b'type'`, `b'kind'`, `b'shape'`,
`b'data'`. -/
def binKeyEnc (s : String) : List Nat := [0xC4, (utf8Str s).length] ++ utf8Str s

/-- Encode a shape tuple as the body of a msgpack array of ints. -/
def packNatList : List Nat → Option (List Nat)
  | [] => some []
  | n :: ns =>
    match encIntRaw (Int.ofNat n), packNatList ns with
    | some b, some bs => some (b ++ bs)
    | _, _ => none

mutual

/-- Model of `msgpack.packb(v, use_bin_type=True)` with the `msgpack_numpy` patch. -/
def packb : JValue → Option (List Nat)
  | .null => some [0xC0]
  | .bool false => some [0xC2]
  | .bool true => some [0xC3]
  | .int n => encIntRaw n
  | .float bits => encFloatRaw bits
  | .str s => encStrRaw s
  | .bin bs => encBinRaw bs
  | .arr xs =>
    match encArrHeader xs.length, packList xs with
    | some h, some body => some (h ++ body)
    | _, _ => none
  | .map kvs =>
    match encMapHeader kvs.length, packPairs kvs with
    | some h, some body => some (h ++ body)
    | _, _ => none
  | .ndarray dt sh d =>
    -- msgpack_numpy encode hook: the array becomes the five-entry dict
    -- {b'nd': True, b'type': dt, b'kind': b'', b'shape': sh, b'data': d},
    -- packed as a fixmap in insertion order.
    match encStrRaw dt, encArrHeader sh.length, packNatList sh, encBinRaw d with
    | some edt, some eshHdr, some eshBody, some ed =>
      some ([0x85] ++ binKeyEnc "nd" ++ [0xC3] ++
        binKeyEnc "type" ++ edt ++
        binKeyEnc "kind" ++ [0xC4, 0] ++
        binKeyEnc "shape" ++ (eshHdr ++ eshBody) ++
        binKeyEnc "data" ++ ed)
    | _, _, _, _ => none

def packList : List JValue → Option (List Nat)
  | [] => some []
  | x :: xs =>
    match packb x, packList xs with
    | some b, some bs => some (b ++ bs)
    | _, _ => none

def packPairs : List (JValue × JValue) → Option (List Nat)
  | [] => some []
  | (k, v) :: kvs =>
    match packb k, packb v, packPairs kvs with
    | some bk, some bv, some bs => some (bk ++ bv ++ bs)
    | _, _, _ => none

end

/-- Interpret a decoded msgpack array as a numpy shape tuple. -/
def jintsToNats : List JValue → Option (List Nat)
  | [] => some []
  | .int k :: rest =>
    if 0 ≤ k then (jintsToNats rest).map (fun ns => k.toNat :: ns) else none
  | _ => none

/-- Model of the `msgpack_numpy` decode object hook: a decoded dict whose `b'nd'` key
is `True` is reconstructed into an array from its `b'type'`, `b'shape'`
and `b'data'` entries (malformed entries make the unpacker raise, embedded
as `none`); any other dict is returned unchanged. -/
def numpyHook (kvs : List (JValue × JValue)) : Option JValue :=
  match dictGet kvs (.bin (utf8Str "nd")) with
  | some (.bool true) =>
    match dictGet kvs (.bin (utf8Str "type")), dictGet kvs (.bin (utf8Str "shape")),
        dictGet kvs (.bin (utf8Str "data")) with
    | some (.str dt), some (.arr shv), some (.bin d) =>
      match jintsToNats shv with
      | some sh => some (.ndarray dt sh d)
      | none => none
    | _, _, _ => none
  | some _ => some (.map kvs)
  | none => some (.map kvs)

/-- Read a `k`-byte big-endian length field. -/
def readLen (k : Nat) (bs : List Nat) : Option (Nat × List Nat) :=
  (readBytes k bs).map (fun p => (fromBE p.1, p.2))

/-- Decode a string body of `len` bytes (strict UTF-8, `raw=False`). -/
def decodeStrBody (len : Nat) (bs : List Nat) : Option (JValue × List Nat) :=
  match readBytes len bs with
  | some (sb, rest) =>
    match utf8DecodeAll sb with
    | some cs => some (.str (String.mk cs), rest)
    | none => none
  | none => none

/-- Decode a bin body of `len` bytes (kept as `bytes`, not reinterpreted
as text). -/
def decodeBinBody (len : Nat) (bs : List Nat) : Option (JValue × List Nat) :=
  match readBytes len bs with
  | some (sb, rest) => some (.bin sb, rest)
  | none => none

mutual

/-- One msgpack value; `fuel` bounds the nesting depth (the caller passes
more fuel than the stream length, which bounds any well-formed depth). -/
def decodeVal : Nat → List Nat → Option (JValue × List Nat)
  | 0, _ => none
  | _ + 1, [] => none
  | fuel + 1, b :: bs =>
    if b < 0x80 then some (.int (Int.ofNat b), bs)
    else if b < 0x90 then decodeMapBody fuel (b - 0x80) bs
    else if b < 0xA0 then decodeArrBody fuel (b - 0x90) bs
    else if b < 0xC0 then decodeStrBody (b - 0xA0) bs
    else if b = 0xC0 then some (.null, bs)
    else if b = 0xC2 then some (.bool false, bs)
    else if b = 0xC3 then some (.bool true, bs)
    else if b = 0xC4 then
      match readLen 1 bs with
      | some (len, rest) => decodeBinBody len rest
      | none => none
    else if b = 0xC5 then
      match readLen 2 bs with
      | some (len, rest) => decodeBinBody len rest
      | none => none
    else if b = 0xC6 then
      match readLen 4 bs with
      | some (len, rest) => decodeBinBody len rest
      | none => none
    else if b = 0xCB then
      match readBytes 8 bs with
      | some (fb, rest) => some (.float (fromBE fb), rest)
      | none => none
    else if b = 0xCC then
      match readLen 1 bs with
      | some (m, rest) => some (.int (Int.ofNat m), rest)
      | none => none
    else if b = 0xCD then
      match readLen 2 bs with
      | some (m, rest) => some (.int (Int.ofNat m), rest)
      | none => none
    else if b = 0xCE then
      match readLen 4 bs with
      | some (m, rest) => some (.int (Int.ofNat m), rest)
      | none => none
    else if b = 0xCF then
      match readLen 8 bs with
      | some (m, rest) => some (.int (Int.ofNat m), rest)
      | none => none
    else if b = 0xD0 then
      match readLen 1 bs with
      | some (m, rest) =>
        some (.int (if m < 128 then Int.ofNat m else Int.ofNat m - 256), rest)
      | none => none
    else if b = 0xD1 then
      match readLen 2 bs with
      | some (m, rest) =>
        some (.int (if m < 32768 then Int.ofNat m else Int.ofNat m - 65536), rest)
      | none => none
    else if b = 0xD2 then
      match readLen 4 bs with
      | some (m, rest) =>
        some (.int (if m < 2147483648 then Int.ofNat m else Int.ofNat m - 4294967296),
          rest)
      | none => none
    else if b = 0xD3 then
      match readLen 8 bs with
      | some (m, rest) =>
        some (.int (if m < 9223372036854775808 then Int.ofNat m
          else Int.ofNat m - 18446744073709551616), rest)
      | none => none
    else if b = 0xD9 then
      match readLen 1 bs with
      | some (len, rest) => decodeStrBody len rest
      | none => none
    else if b = 0xDA then
      match readLen 2 bs with
      | some (len, rest) => decodeStrBody len rest
      | none => none
    else if b = 0xDB then
      match readLen 4 bs with
      | some (len, rest) => decodeStrBody len rest
      | none => none
    else if b = 0xDC then
      match readLen 2 bs with
      | some (len, rest) => decodeArrBody fuel len rest
      | none => none
    else if b = 0xDD then
      match readLen 4 bs with
      | some (len, rest) => decodeArrBody fuel len rest
      | none => none
    else if b = 0xDE then
      match readLen 2 bs with
      | some (len, rest) => decodeMapBody fuel len rest
      | none => none
    else if b = 0xDF then
      match readLen 4 bs with
      | some (len, rest) => decodeMapBody fuel len rest
      | none => none
    else if 0xE0 ≤ b ∧ b < 0x100 then some (.int (Int.ofNat b - 256), bs)
    else none
termination_by fuel _ => (fuel, 0, 0)

def decodeArrBody : Nat → Nat → List Nat → Option (JValue × List Nat)
  | fuel, n, bs =>
    match decodeN fuel n bs with
    | some (xs, rest) => some (.arr xs, rest)
    | none => none
termination_by fuel _ _ => (fuel, 2, 0)

def decodeMapBody : Nat → Nat → List Nat → Option (JValue × List Nat)
  | fuel, n, bs =>
    match decodePairsN fuel n bs with
    | some (pairs, rest) =>
      match numpyHook (buildDict pairs) with
      | some v => some (v, rest)
      | none => none
    | none => none
termination_by fuel _ _ => (fuel, 2, 0)

def decodeN : Nat → Nat → List Nat → Option (List JValue × List Nat)
  | _, 0, bs => some ([], bs)
  | fuel, n + 1, bs =>
    match decodeVal fuel bs with
    | some (v, bs1) =>
      match decodeN fuel n bs1 with
      | some (vs, rest) => some (v :: vs, rest)
      | none => none
    | none => none
termination_by fuel n _ => (fuel, 1, n)

def decodePairsN : Nat → Nat → List Nat → Option (List (JValue × JValue) × List Nat)
  | _, 0, bs => some ([], bs)
  | fuel, n + 1, bs =>
    match decodeVal fuel bs with
    | some (k, bs1) =>
      match decodeVal fuel bs1 with
      | some (v, bs2) =>
        match decodePairsN fuel n bs2 with
        | some (kvs, rest) => some ((k, v) :: kvs, rest)
        | none => none
      | none => none
    | none => none
termination_by fuel n _ => (fuel, 1, n)

end

/-- Model of `msgpack.unpackb(bs, raw=False)` with `msgpack_numpy` active: a single
value must consume the whole buffer (trailing bytes raise `ExtraData`). -/
def unpackb (bs : List Nat) : Option JValue :=
  match decodeVal (bs.length + 1) bs with
  | some (v, []) => some v
  | _ => none

/-! ## Wellformedness and round-trip of the msgpack codec -/

/-- Keys of a pair list, pairwise-distinct check (a real Python dict). -/
def keysNodup : List (JValue × JValue) → Bool
  | [] => true
  | (k, _) :: rest => !(decide (k ∈ rest.map Prod.fst)) && keysNodup rest

mutual

/-- Values whose Python dicts are genuine (duplicate-free) and never use the
reserved `msgpack_numpy` marker key `b'nd'`, so that decoding is unambiguous.
Every value `msgpack.packb` can see from this code base satisfies this. -/
def mpOk : JValue → Bool
  | .arr xs => mpOkList xs
  | .map kvs =>
    keysNodup kvs && !((dictGet kvs (.bin (utf8Str "nd"))).isSome) && mpOkPairs kvs
  | _ => true

def mpOkList : List JValue → Bool
  | [] => true
  | x :: xs => mpOk x && mpOkList xs

def mpOkPairs : List (JValue × JValue) → Bool
  | [] => true
  | (k, v) :: kvs => mpOk k && mpOk v && mpOkPairs kvs

end

mutual

/-- Nesting depth of a value's msgpack encoding (fuel needed to decode). -/
def height : JValue → Nat
  | .arr xs => heightList xs + 1
  | .map kvs => heightPairs kvs + 1
  | .ndarray _ _ _ => 3
  | _ => 1

def heightList : List JValue → Nat
  | [] => 0
  | x :: xs => max (height x) (heightList xs)

def heightPairs : List (JValue × JValue) → Nat
  | [] => 0
  | (k, v) :: kvs => max (max (height k) (height v)) (heightPairs kvs)

end

theorem height_pos : ∀ v : JValue, 1 ≤ height v
  | .null | .bool _ | .int _ | .float _ | .str _ | .bin _ => by simp [height]
  | .arr _ => by simp [height]
  | .map _ => by simp [height]
  | .ndarray _ _ _ => by simp [height]

theorem decodeStrBody_utf8 (s : String) (rest : List Nat) :
    decodeStrBody (utf8Str s).length (utf8Str s ++ rest) = some (.str s, rest) := by
  unfold decodeStrBody
  simp [readBytes_exact _ _ _ rfl, utf8DecodeAll_utf8Str]

theorem fromBE_singleton (b : Nat) : fromBE [b] = b := by
  simp [fromBE]

theorem decodeVal_encStr (s : String) (bs : List Nat) (h : encStrRaw s = some bs)
    (fuel : Nat) (hfuel : 1 ≤ fuel) (rest : List Nat) :
    decodeVal fuel (bs ++ rest) = some (.str s, rest) := by
  obtain ⟨fuel, rfl⟩ : ∃ f, fuel = f + 1 := ⟨fuel - 1, by omega⟩
  unfold encStrRaw encStrHeader at h
  by_cases h1 : (utf8Str s).length < 32
  · simp only [h1, if_true, Option.map_some', Option.some.injEq] at h
    subst h
    simp only [List.cons_append, List.nil_append, decodeVal]
    have c1 : ¬ (0xA0 + (utf8Str s).length < 0x80) := by omega
    have c2 : ¬ (0xA0 + (utf8Str s).length < 0x90) := by omega
    have c3 : ¬ (0xA0 + (utf8Str s).length < 0xA0) := by omega
    have c4 : 0xA0 + (utf8Str s).length < 0xC0 := by omega
    simp only [c1, c2, c3, c4, if_false, if_true]
    have he : 0xA0 + (utf8Str s).length - 0xA0 = (utf8Str s).length := by omega
    rw [he]
    exact decodeStrBody_utf8 s rest
  · by_cases h2 : (utf8Str s).length < 256
    · simp only [h1, h2, if_false, if_true, Option.map_some', Option.some.injEq] at h
      subst h
      simp only [List.cons_append, decodeVal]
      norm_num
      unfold readLen
      rw [show ((utf8Str s).length :: (utf8Str s ++ rest)) =
        ([(utf8Str s).length] ++ (utf8Str s ++ rest)) from rfl]
      rw [readBytes_exact [(utf8Str s).length] (utf8Str s ++ rest) 1 rfl]
      simp only [Option.map_some', fromBE_singleton]
      exact decodeStrBody_utf8 s rest
    · by_cases h3 : (utf8Str s).length < 65536
      · simp only [h1, h2, h3, if_false, if_true, Option.map_some',
          Option.some.injEq] at h
        subst h
        simp only [List.cons_append, List.append_assoc, decodeVal]
        norm_num
        unfold readLen
        rw [readBytes_exact (beBytes 2 (utf8Str s).length) (utf8Str s ++ rest) 2
          (beBytes_length 2 _)]
        simp only [Option.map_some', fromBE_beBytes 2 _ (by omega : (utf8Str s).length < 256 ^ 2)]
        exact decodeStrBody_utf8 s rest
      · by_cases h4 : (utf8Str s).length < 4294967296
        · simp only [h1, h2, h3, h4, if_false, if_true, Option.map_some',
            Option.some.injEq] at h
          subst h
          simp only [List.cons_append, List.append_assoc, decodeVal]
          norm_num
          unfold readLen
          rw [readBytes_exact (beBytes 4 (utf8Str s).length) (utf8Str s ++ rest) 4
            (beBytes_length 4 _)]
          simp only [Option.map_some',
            fromBE_beBytes 4 _ (by omega : (utf8Str s).length < 256 ^ 4)]
          exact decodeStrBody_utf8 s rest
        · simp [h1, h2, h3, h4] at h

theorem decodeBinBody_exact (d : List Nat) (rest : List Nat) :
    decodeBinBody d.length (d ++ rest) = some (.bin d, rest) := by
  unfold decodeBinBody
  rw [readBytes_exact _ _ _ rfl]

theorem decodeVal_encBin (d : List Nat) (bs : List Nat) (h : encBinRaw d = some bs)
    (fuel : Nat) (hfuel : 1 ≤ fuel) (rest : List Nat) :
    decodeVal fuel (bs ++ rest) = some (.bin d, rest) := by
  obtain ⟨fuel, rfl⟩ : ∃ f, fuel = f + 1 := ⟨fuel - 1, by omega⟩
  unfold encBinRaw at h
  by_cases h1 : d.length < 256
  · simp only [h1, if_true, Option.some.injEq] at h
    subst h
    simp only [List.cons_append, List.append_assoc, decodeVal]
    norm_num
    unfold readLen
    rw [show (d.length :: (d ++ rest)) = ([d.length] ++ (d ++ rest)) from rfl]
    rw [readBytes_exact [d.length] (d ++ rest) 1 rfl]
    simp only [Option.map_some', fromBE_singleton]
    exact decodeBinBody_exact d rest
  · by_cases h2 : d.length < 65536
    · simp only [h1, h2, if_false, if_true, Option.some.injEq] at h
      subst h
      simp only [List.cons_append, List.append_assoc, decodeVal]
      norm_num
      unfold readLen
      rw [readBytes_exact (beBytes 2 d.length) (d ++ rest) 2 (beBytes_length 2 _)]
      simp only [Option.map_some', fromBE_beBytes 2 _ (by omega : d.length < 256 ^ 2)]
      exact decodeBinBody_exact d rest
    · by_cases h3 : d.length < 4294967296
      · simp only [h1, h2, h3, if_false, if_true, Option.some.injEq] at h
        subst h
        simp only [List.cons_append, List.append_assoc, decodeVal]
        norm_num
        unfold readLen
        rw [readBytes_exact (beBytes 4 d.length) (d ++ rest) 4 (beBytes_length 4 _)]
        simp only [Option.map_some', fromBE_beBytes 4 _ (by omega : d.length < 256 ^ 4)]
        exact decodeBinBody_exact d rest
      · simp [h1, h2, h3] at h

theorem decodeVal_encFloat (bits : Nat) (bs : List Nat) (h : encFloatRaw bits = some bs)
    (fuel : Nat) (hfuel : 1 ≤ fuel) (rest : List Nat) :
    decodeVal fuel (bs ++ rest) = some (.float bits, rest) := by
  obtain ⟨fuel, rfl⟩ : ∃ f, fuel = f + 1 := ⟨fuel - 1, by omega⟩
  unfold encFloatRaw at h
  by_cases h1 : bits < 18446744073709551616
  · simp only [h1, if_true, Option.some.injEq] at h
    subst h
    simp only [List.cons_append, decodeVal]
    norm_num
    rw [readBytes_exact (beBytes 8 bits) rest 8 (beBytes_length 8 _)]
    simp [fromBE_beBytes 8 bits (by omega : bits < 256 ^ 8)]
  · simp [h1] at h

theorem decodeVal_encInt (n : Int) (bs : List Nat) (h : encIntRaw n = some bs)
    (fuel : Nat) (hfuel : 1 ≤ fuel) (rest : List Nat) :
    decodeVal fuel (bs ++ rest) = some (.int n, rest) := by
  obtain ⟨fuel, rfl⟩ : ∃ f, fuel = f + 1 := ⟨fuel - 1, by omega⟩
  unfold encIntRaw at h
  by_cases hp : 0 ≤ n
  · simp only [hp, if_true] at h
    have hm : (n.toNat : Int) = n := Int.toNat_of_nonneg hp
    by_cases h1 : n.toNat < 128
    · simp only [h1, if_true, Option.some.injEq] at h
      subst h
      simp only [List.cons_append, decodeVal]
      have c1 : n.toNat < 0x80 := h1
      simp [c1, Int.ofNat_eq_natCast, hm, hp]
    · by_cases h2 : n.toNat < 256
      · simp only [h1, h2, if_false, if_true, Option.some.injEq] at h
        subst h
        simp only [List.cons_append, decodeVal]
        norm_num
        unfold readLen
        rw [show (n.toNat :: rest) = ([n.toNat] ++ rest) from rfl]
        rw [readBytes_exact [n.toNat] rest 1 rfl]
        simp only [Option.map_some', fromBE_singleton, Option.some.injEq]
        simp [Int.ofNat_eq_natCast, hm, hp]
      · by_cases h3 : n.toNat < 65536
        · simp only [h1, h2, h3, if_false, if_true, Option.some.injEq] at h
          subst h
          simp only [List.cons_append, decodeVal]
          norm_num
          unfold readLen
          rw [readBytes_exact (beBytes 2 n.toNat) rest 2 (beBytes_length 2 _)]
          simp only [Option.map_some', fromBE_beBytes 2 _ (by omega : n.toNat < 256 ^ 2),
            Option.some.injEq]
          simp [Int.ofNat_eq_natCast, hm, hp]
        · by_cases h4 : n.toNat < 4294967296
          · simp only [h1, h2, h3, h4, if_false, if_true, Option.some.injEq] at h
            subst h
            simp only [List.cons_append, decodeVal]
            norm_num
            unfold readLen
            rw [readBytes_exact (beBytes 4 n.toNat) rest 4 (beBytes_length 4 _)]
            simp only [Option.map_some',
              fromBE_beBytes 4 _ (by omega : n.toNat < 256 ^ 4), Option.some.injEq]
            simp [Int.ofNat_eq_natCast, hm, hp]
          · by_cases h5 : n.toNat < 18446744073709551616
            · simp only [h1, h2, h3, h4, h5, if_false, if_true, Option.some.injEq] at h
              subst h
              simp only [List.cons_append, decodeVal]
              norm_num
              unfold readLen
              rw [readBytes_exact (beBytes 8 n.toNat) rest 8 (beBytes_length 8 _)]
              simp only [Option.map_some',
                fromBE_beBytes 8 _ (by omega : n.toNat < 256 ^ 8), Option.some.injEq]
              simp [Int.ofNat_eq_natCast, hm, hp]
            · simp [h1, h2, h3, h4, h5] at h
  · simp only [hp, if_false] at h
    have hneg : n < 0 := by omega
    by_cases h1 : -32 ≤ n
    · simp only [h1, if_true, Option.some.injEq] at h
      subst h
      simp only [List.cons_append, decodeVal]
      have c1 : ¬ ((n + 256).toNat < 0x80) := by omega
      have c2 : ¬ ((n + 256).toNat < 0x90) := by omega
      have c3 : ¬ ((n + 256).toNat < 0xA0) := by omega
      have c4 : ¬ ((n + 256).toNat < 0xC0) := by omega
      have cne : ∀ m : Nat, (n + 256).toNat ≠ m →
          ((n + 256).toNat = m) = False := fun m hm => by simp [hm]
      have c5 : 0xE0 ≤ (n + 256).toNat ∧ (n + 256).toNat < 0x100 := by omega
      simp only [c1, c2, c3, c4, if_false,
        cne 0xC0 (by omega), cne 0xC2 (by omega), cne 0xC3 (by omega),
        cne 0xC4 (by omega), cne 0xC5 (by omega), cne 0xC6 (by omega),
        cne 0xCB (by omega), cne 0xCC (by omega), cne 0xCD (by omega),
        cne 0xCE (by omega), cne 0xCF (by omega), cne 0xD0 (by omega),
        cne 0xD1 (by omega), cne 0xD2 (by omega), cne 0xD3 (by omega),
        cne 0xD9 (by omega), cne 0xDA (by omega), cne 0xDB (by omega),
        cne 0xDC (by omega), cne 0xDD (by omega), cne 0xDE (by omega),
        cne 0xDF (by omega), c5, if_true, Option.some.injEq]
      have he : (((n + 256).toNat : Int)) - 256 = n := by omega
      simp only [Int.ofNat_eq_natCast, he, and_self, if_true, List.nil_append]
    · by_cases h2 : -128 ≤ n
      · simp only [h1, h2, if_false, if_true, Option.some.injEq] at h
        subst h
        simp only [List.cons_append, decodeVal]
        norm_num
        unfold readLen
        rw [show ((n + 256).toNat :: rest) = ([(n + 256).toNat] ++ rest) from rfl]
        rw [readBytes_exact [(n + 256).toNat] rest 1 rfl]
        simp only [Option.map_some', fromBE_singleton]
        have cge : ¬ ((n + 256).toNat < 128) := by omega
        simp only [cge, if_false, Option.some.injEq]
        have he : (((n + 256).toNat : Int)) - 256 = n := by omega
        simp only [Int.ofNat_eq_natCast, he, and_self, if_true, List.nil_append]
      · by_cases h3 : -32768 ≤ n
        · simp only [h1, h2, h3, if_false, if_true, Option.some.injEq] at h
          subst h
          simp only [List.cons_append, decodeVal]
          norm_num
          unfold readLen
          rw [readBytes_exact (beBytes 2 (n + 65536).toNat) rest 2 (beBytes_length 2 _)]
          simp only [Option.map_some',
            fromBE_beBytes 2 _ (by omega : (n + 65536).toNat < 256 ^ 2)]
          have cge : ¬ ((n + 65536).toNat < 32768) := by omega
          simp only [cge, if_false, Option.some.injEq]
          have he : (((n + 65536).toNat : Int)) - 65536 = n := by omega
          simp only [Int.ofNat_eq_natCast, he, and_self, if_true, List.nil_append]
        · by_cases h4 : -2147483648 ≤ n
          · simp only [h1, h2, h3, h4, if_false, if_true, Option.some.injEq] at h
            subst h
            simp only [List.cons_append, decodeVal]
            norm_num
            unfold readLen
            rw [readBytes_exact (beBytes 4 (n + 4294967296).toNat) rest 4
              (beBytes_length 4 _)]
            simp only [Option.map_some',
              fromBE_beBytes 4 _ (by omega : (n + 4294967296).toNat < 256 ^ 4)]
            have cge : ¬ ((n + 4294967296).toNat < 2147483648) := by omega
            simp only [cge, if_false, Option.some.injEq]
            have he : (((n + 4294967296).toNat : Int)) - 4294967296 = n := by omega
            simp only [Int.ofNat_eq_natCast, he, and_self, if_true, List.nil_append]
          · by_cases h5 : -9223372036854775808 ≤ n
            · simp only [h1, h2, h3, h4, h5, if_false, if_true, Option.some.injEq] at h
              subst h
              simp only [List.cons_append, decodeVal]
              norm_num
              unfold readLen
              rw [readBytes_exact (beBytes 8 (n + 18446744073709551616).toNat) rest 8
                (beBytes_length 8 _)]
              simp only [Option.map_some', fromBE_beBytes 8 _
                (by omega : (n + 18446744073709551616).toNat < 256 ^ 8)]
              have cge : ¬ ((n + 18446744073709551616).toNat < 9223372036854775808) := by
                omega
              simp only [cge, if_false, Option.some.injEq]
              have he : (((n + 18446744073709551616).toNat : Int)) - 18446744073709551616 = n := by omega
              simp only [Int.ofNat_eq_natCast, he, and_self, if_true, List.nil_append]
            · simp [h1, h2, h3, h4, h5] at h

theorem decodeVal_null (fuel : Nat) (hfuel : 1 ≤ fuel) (rest : List Nat) :
    decodeVal fuel (0xC0 :: rest) = some (.null, rest) := by
  obtain ⟨fuel, rfl⟩ : ∃ f, fuel = f + 1 := ⟨fuel - 1, by omega⟩
  simp [decodeVal]

theorem decodeVal_false (fuel : Nat) (hfuel : 1 ≤ fuel) (rest : List Nat) :
    decodeVal fuel (0xC2 :: rest) = some (.bool false, rest) := by
  obtain ⟨fuel, rfl⟩ : ∃ f, fuel = f + 1 := ⟨fuel - 1, by omega⟩
  simp [decodeVal]

theorem decodeVal_true (fuel : Nat) (hfuel : 1 ≤ fuel) (rest : List Nat) :
    decodeVal fuel (0xC3 :: rest) = some (.bool true, rest) := by
  obtain ⟨fuel, rfl⟩ : ∃ f, fuel = f + 1 := ⟨fuel - 1, by omega⟩
  simp [decodeVal]

theorem binKeyEnc_eq_encBinRaw (s : String) (h : (utf8Str s).length < 256) :
    encBinRaw (utf8Str s) = some (binKeyEnc s) := by
  simp [encBinRaw, binKeyEnc, h]

theorem decodeVal_binKey (s : String) (h : (utf8Str s).length < 256)
    (fuel : Nat) (hfuel : 1 ≤ fuel) (rest : List Nat) :
    decodeVal fuel (binKeyEnc s ++ rest) = some (.bin (utf8Str s), rest) :=
  decodeVal_encBin (utf8Str s) _ (binKeyEnc_eq_encBinRaw s h) fuel hfuel rest

theorem decodeVal_arrHeader (n : Nat) (h : List Nat) (hh : encArrHeader n = some h)
    (fuel : Nat) (bs : List Nat) :
    decodeVal (fuel + 1) (h ++ bs) = decodeArrBody fuel n bs := by
  unfold encArrHeader at hh
  by_cases h1 : n < 16
  · simp only [h1, if_true, Option.some.injEq] at hh
    subst hh
    simp only [List.cons_append, List.nil_append, decodeVal]
    have c1 : ¬ (0x90 + n < 0x80) := by omega
    have c2 : ¬ (0x90 + n < 0x90) := by omega
    have c3 : 0x90 + n < 0xA0 := by omega
    simp only [c1, c2, c3, if_false, if_true]
    congr 1
    omega
  · by_cases h2 : n < 65536
    · simp only [h1, h2, if_false, if_true, Option.some.injEq] at hh
      subst hh
      simp only [List.cons_append, List.append_assoc, decodeVal]
      norm_num
      unfold readLen
      rw [readBytes_exact (beBytes 2 n) bs 2 (beBytes_length 2 _)]
      simp [fromBE_beBytes 2 n (by omega : n < 256 ^ 2)]
    · by_cases h3 : n < 4294967296
      · simp only [h1, h2, h3, if_false, if_true, Option.some.injEq] at hh
        subst hh
        simp only [List.cons_append, List.append_assoc, decodeVal]
        norm_num
        unfold readLen
        rw [readBytes_exact (beBytes 4 n) bs 4 (beBytes_length 4 _)]
        simp [fromBE_beBytes 4 n (by omega : n < 256 ^ 4)]
      · simp [h1, h2, h3] at hh

theorem decodeVal_mapHeader (n : Nat) (h : List Nat) (hh : encMapHeader n = some h)
    (fuel : Nat) (bs : List Nat) :
    decodeVal (fuel + 1) (h ++ bs) = decodeMapBody fuel n bs := by
  unfold encMapHeader at hh
  by_cases h1 : n < 16
  · simp only [h1, if_true, Option.some.injEq] at hh
    subst hh
    simp only [List.cons_append, List.nil_append, decodeVal]
    have c1 : ¬ (0x80 + n < 0x80) := by omega
    have c2 : 0x80 + n < 0x90 := by omega
    simp only [c1, c2, if_false, if_true]
    congr 1
    omega
  · by_cases h2 : n < 65536
    · simp only [h1, h2, if_false, if_true, Option.some.injEq] at hh
      subst hh
      simp only [List.cons_append, List.append_assoc, decodeVal]
      norm_num
      unfold readLen
      rw [readBytes_exact (beBytes 2 n) bs 2 (beBytes_length 2 _)]
      simp [fromBE_beBytes 2 n (by omega : n < 256 ^ 2)]
    · by_cases h3 : n < 4294967296
      · simp only [h1, h2, h3, if_false, if_true, Option.some.injEq] at hh
        subst hh
        simp only [List.cons_append, List.append_assoc, decodeVal]
        norm_num
        unfold readLen
        rw [readBytes_exact (beBytes 4 n) bs 4 (beBytes_length 4 _)]
        simp [fromBE_beBytes 4 n (by omega : n < 256 ^ 4)]
      · simp [h1, h2, h3] at hh

theorem decodeN_packNatList (sh : List Nat) :
    ∀ bs, packNatList sh = some bs → ∀ fuel, 1 ≤ fuel → ∀ rest,
      decodeN fuel sh.length (bs ++ rest) =
        some (sh.map (fun n => JValue.int (Int.ofNat n)), rest) := by
  induction sh with
  | nil =>
    intro bs hbs fuel hfuel rest
    simp only [packNatList, Option.some.injEq] at hbs
    subst hbs
    simp [decodeN]
  | cons n ns ih =>
    intro bs hbs fuel hfuel rest
    simp only [packNatList] at hbs
    cases he : encIntRaw (Int.ofNat n) with
    | none => rw [he] at hbs; simp at hbs
    | some b =>
      cases hrest : packNatList ns with
      | none => rw [he, hrest] at hbs; simp at hbs
      | some bsr =>
        rw [he, hrest] at hbs
        simp only [Option.some.injEq] at hbs
        subst hbs
        simp only [List.length_cons, List.map_cons]
        obtain ⟨fuel, rfl⟩ : ∃ f, fuel = f + 1 := ⟨fuel - 1, by omega⟩
        simp only [decodeN, List.append_assoc]
        rw [decodeVal_encInt (Int.ofNat n) b he (fuel + 1) (by omega) (bsr ++ rest)]
        simp only [ih bsr hrest (fuel + 1) (by omega) rest]

theorem jintsToNats_map (sh : List Nat) :
    jintsToNats (sh.map (fun n => JValue.int (Int.ofNat n))) = some sh := by
  induction sh with
  | nil => rfl
  | cons n ns ih =>
    simp only [List.map_cons, jintsToNats]
    simp only [Int.ofNat_eq_natCast] at ih
    simp [jintsToNats, Int.ofNat_eq_natCast, Int.natCast_nonneg, ih, Int.toNat_natCast]

theorem keysNodup_pairwise : ∀ kvs : List (JValue × JValue), keysNodup kvs = true →
    kvs.Pairwise (fun a b => a.1 ≠ b.1)
  | [], _ => List.Pairwise.nil
  | (k, v) :: rest, h => by
    simp only [keysNodup, Bool.and_eq_true, Bool.not_eq_true', decide_eq_false_iff_not] at h
    refine List.pairwise_cons.mpr ⟨?_, keysNodup_pairwise rest h.2⟩
    intro b hb heq
    exact h.1 (List.mem_map.mpr ⟨b, hb, heq.symm⟩)

theorem decodeN_cons (fuel n : Nat) (bs bs1 rest : List Nat) (v : JValue)
    (vs : List JValue) (hv : decodeVal fuel bs = some (v, bs1))
    (hrest : decodeN fuel n bs1 = some (vs, rest)) :
    decodeN fuel (n + 1) bs = some (v :: vs, rest) := by
  simp [decodeN, hv, hrest]

theorem decodePairsN_cons (fuel n : Nat) (bs bs1 bs2 rest : List Nat) (k v : JValue)
    (kvs : List (JValue × JValue)) (hk : decodeVal fuel bs = some (k, bs1))
    (hv : decodeVal fuel bs1 = some (v, bs2))
    (hrest : decodePairsN fuel n bs2 = some (kvs, rest)) :
    decodePairsN fuel (n + 1) bs = some ((k, v) :: kvs, rest) := by
  simp [decodePairsN, hk, hv, hrest]

theorem decodeVal_natArr (sh : List Nat) (eshHdr eshBody : List Nat)
    (hsh : encArrHeader sh.length = some eshHdr) (hshb : packNatList sh = some eshBody)
    (fuel : Nat) (hfuel : 2 ≤ fuel) (rest : List Nat) :
    decodeVal fuel (eshHdr ++ (eshBody ++ rest)) =
      some (.arr (sh.map (fun n => JValue.int (Int.ofNat n))), rest) := by
  obtain ⟨fuel, rfl⟩ : ∃ f, fuel = f + 1 := ⟨fuel - 1, by omega⟩
  rw [decodeVal_arrHeader sh.length eshHdr hsh fuel (eshBody ++ rest)]
  simp only [decodeArrBody, decodeN_packNatList sh eshBody hshb fuel (by omega) rest]

/-- The five `msgpack_numpy` dict entries decode back to the hook's pair
list. -/
theorem decodePairsN_ndarrayPairs (dt : String) (sh d : List Nat)
    (edt eshHdr eshBody ed : List Nat)
    (hdt : encStrRaw dt = some edt) (hsh : encArrHeader sh.length = some eshHdr)
    (hshb : packNatList sh = some eshBody) (hd : encBinRaw d = some ed)
    (fuel : Nat) (hfuel : 2 ≤ fuel) (rest : List Nat) :
    decodePairsN fuel 5 (binKeyEnc "nd" ++ (0xC3 ::
      (binKeyEnc "type" ++ (edt ++ (binKeyEnc "kind" ++ (0xC4 :: 0 ::
      (binKeyEnc "shape" ++ (eshHdr ++ (eshBody ++
      (binKeyEnc "data" ++ (ed ++ rest))))))))))) =
      some ([(.bin (utf8Str "nd"), .bool true),
             (.bin (utf8Str "type"), .str dt),
             (.bin (utf8Str "kind"), .bin []),
             (.bin (utf8Str "shape"), .arr (sh.map (fun n => JValue.int (Int.ofNat n)))),
             (.bin (utf8Str "data"), .bin d)], rest) := by
  have h1 : 1 ≤ fuel := by omega
  refine decodePairsN_cons fuel 4 _ _ _ rest _ _ _
    (decodeVal_binKey "nd" (by decide) fuel h1 _) (decodeVal_true fuel h1 _) ?_
  refine decodePairsN_cons fuel 3 _ _ _ rest _ _ _
    (decodeVal_binKey "type" (by decide) fuel h1 _)
    (decodeVal_encStr dt edt hdt fuel h1 _) ?_
  refine decodePairsN_cons fuel 2 _ _ _ rest _ _ _
    (decodeVal_binKey "kind" (by decide) fuel h1 _)
    (decodeVal_encBin [] [0xC4, 0] (by decide) fuel h1 _) ?_
  refine decodePairsN_cons fuel 1 _ _ _ rest _ _ _
    (decodeVal_binKey "shape" (by decide) fuel h1 _)
    (decodeVal_natArr sh eshHdr eshBody hsh hshb fuel hfuel _) ?_
  refine decodePairsN_cons fuel 0 _ _ _ rest _ _ _
    (decodeVal_binKey "data" (by decide) fuel h1 _)
    (decodeVal_encBin d ed hd fuel h1 rest) ?_
  simp [decodePairsN]

mutual

theorem decodeVal_packb : ∀ v : JValue, mpOk v = true → ∀ bs, packb v = some bs →
    ∀ fuel rest, height v ≤ fuel → decodeVal fuel (bs ++ rest) = some (v, rest)
  | .null, _, bs, hbs, fuel, rest, hfuel => by
    simp only [packb, Option.some.injEq] at hbs
    subst hbs
    exact decodeVal_null fuel (le_trans (height_pos .null) hfuel) rest
  | .bool false, _, bs, hbs, fuel, rest, hfuel => by
    simp only [packb, Option.some.injEq] at hbs
    subst hbs
    exact decodeVal_false fuel (le_trans (height_pos (.bool false)) hfuel) rest
  | .bool true, _, bs, hbs, fuel, rest, hfuel => by
    simp only [packb, Option.some.injEq] at hbs
    subst hbs
    exact decodeVal_true fuel (le_trans (height_pos (.bool true)) hfuel) rest
  | .int n, _, bs, hbs, fuel, rest, hfuel =>
    decodeVal_encInt n bs hbs fuel (le_trans (height_pos (.int n)) hfuel) rest
  | .float bits, _, bs, hbs, fuel, rest, hfuel =>
    decodeVal_encFloat bits bs hbs fuel (le_trans (height_pos (.float bits)) hfuel) rest
  | .str s, _, bs, hbs, fuel, rest, hfuel =>
    decodeVal_encStr s bs hbs fuel (le_trans (height_pos (.str s)) hfuel) rest
  | .bin d, _, bs, hbs, fuel, rest, hfuel =>
    decodeVal_encBin d bs hbs fuel (le_trans (height_pos (.bin d)) hfuel) rest
  | .arr xs, hok, bs, hbs, fuel, rest, hfuel => by
    simp only [packb] at hbs
    cases hh : encArrHeader xs.length with
    | none => rw [hh] at hbs; simp at hbs
    | some hdr =>
      cases hb : packList xs with
      | none => rw [hh, hb] at hbs; simp at hbs
      | some body =>
        rw [hh, hb] at hbs
        simp only [Option.some.injEq] at hbs
        subst hbs
        obtain ⟨f, rfl⟩ : ∃ f, fuel = f + 1 :=
          ⟨fuel - 1, by have := height_pos (.arr xs); omega⟩
        have hfl : heightList xs ≤ f := by
          simp only [height] at hfuel
          omega
        rw [List.append_assoc, decodeVal_arrHeader xs.length hdr hh f (body ++ rest)]
        have hokl : mpOkList xs = true := by simpa [mpOk] using hok
        simp only [decodeArrBody, decodeN_packList xs hokl body hb f rest hfl]
  | .map kvs, hok, bs, hbs, fuel, rest, hfuel => by
    simp only [packb] at hbs
    cases hh : encMapHeader kvs.length with
    | none => rw [hh] at hbs; simp at hbs
    | some hdr =>
      cases hb : packPairs kvs with
      | none => rw [hh, hb] at hbs; simp at hbs
      | some body =>
        rw [hh, hb] at hbs
        simp only [Option.some.injEq] at hbs
        subst hbs
        obtain ⟨f, rfl⟩ : ∃ f, fuel = f + 1 :=
          ⟨fuel - 1, by have := height_pos (.map kvs); omega⟩
        have hfl : heightPairs kvs ≤ f := by
          simp only [height] at hfuel
          omega
        have hok3 : keysNodup kvs = true ∧
            (dictGet kvs (.bin (utf8Str "nd"))).isSome = false ∧
            mpOkPairs kvs = true := by
          simpa [mpOk, Bool.and_eq_true, and_assoc] using hok
        rw [List.append_assoc, decodeVal_mapHeader kvs.length hdr hh f (body ++ rest)]
        simp only [decodeMapBody, decodePairsN_packPairs kvs hok3.2.2 body hb f rest hfl]
        rw [buildDict_nodup kvs (keysNodup_pairwise kvs hok3.1)]
        have hnd : dictGet kvs (.bin (utf8Str "nd")) = none :=
          Option.not_isSome_iff_eq_none.mp (by simp [hok3.2.1])
        simp only [numpyHook, hnd]
  | .ndarray dt sh d, _, bs, hbs, fuel, rest, hfuel => by
    simp only [packb] at hbs
    cases hdt : encStrRaw dt with
    | none => rw [hdt] at hbs; simp at hbs
    | some edt =>
      cases hsh : encArrHeader sh.length with
      | none => rw [hdt, hsh] at hbs; simp at hbs
      | some eshHdr =>
        cases hshb : packNatList sh with
        | none => rw [hdt, hsh, hshb] at hbs; simp at hbs
        | some eshBody =>
          cases hd : encBinRaw d with
          | none => rw [hdt, hsh, hshb, hd] at hbs; simp at hbs
          | some ed =>
            rw [hdt, hsh, hshb, hd] at hbs
            simp only [Option.some.injEq] at hbs
            subst hbs
            obtain ⟨f, rfl⟩ : ∃ f, fuel = f + 1 :=
              ⟨fuel - 1, by have := height_pos (.ndarray dt sh d); omega⟩
            have hf2 : 2 ≤ f := by
              simp only [height] at hfuel
              omega
            simp only [List.cons_append, List.nil_append, List.append_assoc]
            show decodeVal (f + 1) (0x85 :: _) = _
            rw [show (0x85 :: (binKeyEnc "nd" ++ (0xC3 :: (binKeyEnc "type" ++ (edt ++
              (binKeyEnc "kind" ++ (0xC4 :: (0 :: (binKeyEnc "shape" ++ (eshHdr ++
              (eshBody ++ (binKeyEnc "data" ++ (ed ++ rest))))))))))))) =
              ([0x85] ++ (binKeyEnc "nd" ++ (0xC3 :: (binKeyEnc "type" ++ (edt ++
              (binKeyEnc "kind" ++ (0xC4 :: (0 :: (binKeyEnc "shape" ++ (eshHdr ++
              (eshBody ++ (binKeyEnc "data" ++ (ed ++ rest)))))))))))))  from rfl]
            rw [decodeVal_mapHeader 5 [0x85] (by decide) f _]
            simp only [decodeMapBody,
              decodePairsN_ndarrayPairs dt sh d edt eshHdr eshBody ed hdt hsh hshb hd
                f hf2 rest]
            have hbd : buildDict
                [(.bin (utf8Str "nd"), .bool true),
                 (.bin (utf8Str "type"), .str dt),
                 (.bin (utf8Str "kind"), .bin []),
                 (.bin (utf8Str "shape"), .arr (sh.map (fun n => JValue.int (Int.ofNat n)))),
                 (.bin (utf8Str "data"), .bin d)] =
                [(.bin (utf8Str "nd"), .bool true),
                 (.bin (utf8Str "type"), .str dt),
                 (.bin (utf8Str "kind"), .bin []),
                 (.bin (utf8Str "shape"), .arr (sh.map (fun n => JValue.int (Int.ofNat n)))),
                 (.bin (utf8Str "data"), .bin d)] := by
              simp +decide [buildDict, dictSet]
            rw [hbd]
            have hjm := jintsToNats_map sh
            simp only [Int.ofNat_eq_natCast] at hjm
            have hhook : numpyHook
                [(.bin (utf8Str "nd"), .bool true),
                 (.bin (utf8Str "type"), .str dt),
                 (.bin (utf8Str "kind"), .bin []),
                 (.bin (utf8Str "shape"), .arr (sh.map (fun n => JValue.int (Int.ofNat n)))),
                 (.bin (utf8Str "data"), .bin d)] = some (.ndarray dt sh d) := by
              simp +decide [numpyHook, dictGet, hjm]
            simp only [hhook]

theorem decodeN_packList : ∀ xs : List JValue, mpOkList xs = true →
    ∀ bs, packList xs = some bs → ∀ fuel rest, heightList xs ≤ fuel →
    decodeN fuel xs.length (bs ++ rest) = some (xs, rest)
  | [], _, bs, hbs, fuel, rest, _ => by
    simp only [packList, Option.some.injEq] at hbs
    subst hbs
    simp [decodeN]
  | x :: xs, hok, bs, hbs, fuel, rest, hfl => by
    simp only [packList] at hbs
    cases hx : packb x with
    | none => rw [hx] at hbs; simp at hbs
    | some bx =>
      cases hxs : packList xs with
      | none => rw [hx, hxs] at hbs; simp at hbs
      | some bxs =>
        rw [hx, hxs] at hbs
        simp only [Option.some.injEq] at hbs
        subst hbs
        have hok2 : mpOk x = true ∧ mpOkList xs = true := by
          simpa [mpOkList, Bool.and_eq_true] using hok
        have hfl2 : height x ≤ fuel ∧ heightList xs ≤ fuel := by
          simp only [heightList, max_le_iff] at hfl
          exact hfl
        simp only [List.length_cons, List.append_assoc]
        exact decodeN_cons fuel xs.length _ _ rest x xs
          (decodeVal_packb x hok2.1 bx hx fuel (bxs ++ rest) hfl2.1)
          (decodeN_packList xs hok2.2 bxs hxs fuel rest hfl2.2)

theorem decodePairsN_packPairs : ∀ kvs : List (JValue × JValue), mpOkPairs kvs = true →
    ∀ bs, packPairs kvs = some bs → ∀ fuel rest, heightPairs kvs ≤ fuel →
    decodePairsN fuel kvs.length (bs ++ rest) = some (kvs, rest)
  | [], _, bs, hbs, fuel, rest, _ => by
    simp only [packPairs, Option.some.injEq] at hbs
    subst hbs
    simp [decodePairsN]
  | (k, v) :: kvs, hok, bs, hbs, fuel, rest, hfl => by
    simp only [packPairs] at hbs
    cases hk : packb k with
    | none => rw [hk] at hbs; simp at hbs
    | some bk =>
      cases hv : packb v with
      | none => rw [hk, hv] at hbs; simp at hbs
      | some bv =>
        cases hkvs : packPairs kvs with
        | none => rw [hk, hv, hkvs] at hbs; simp at hbs
        | some bkvs =>
          rw [hk, hv, hkvs] at hbs
          simp only [Option.some.injEq] at hbs
          subst hbs
          have hok3 : mpOk k = true ∧ mpOk v = true ∧ mpOkPairs kvs = true := by
            simpa [mpOkPairs, Bool.and_eq_true, and_assoc] using hok
          have hfl3 : height k ≤ fuel ∧ height v ≤ fuel ∧ heightPairs kvs ≤ fuel := by
            simp only [heightPairs, max_le_iff] at hfl
            exact ⟨hfl.1.1, hfl.1.2, hfl.2⟩
          simp only [List.length_cons, List.append_assoc]
          exact decodePairsN_cons fuel kvs.length _ _ _ rest k v kvs
            (decodeVal_packb k hok3.1 bk hk fuel (bv ++ (bkvs ++ rest)) hfl3.1)
            (decodeVal_packb v hok3.2.1 bv hv fuel (bkvs ++ rest) hfl3.2.1)
            (decodePairsN_packPairs kvs hok3.2.2 bkvs hkvs fuel rest hfl3.2.2)

end

theorem encIntRaw_length_pos (n : Int) (bs : List Nat) (h : encIntRaw n = some bs) :
    1 ≤ bs.length := by
  unfold encIntRaw at h
  repeat' split at h
  all_goals first
  | (simp only [Option.some.injEq] at h; subst h; simp [beBytes_length])
  | simp at h

theorem encFloatRaw_length_pos (bits : Nat) (bs : List Nat)
    (h : encFloatRaw bits = some bs) : 1 ≤ bs.length := by
  unfold encFloatRaw at h
  repeat' split at h
  all_goals first
  | (simp only [Option.some.injEq] at h; subst h; simp [beBytes_length])
  | simp at h

theorem encStrRaw_length_pos (s : String) (bs : List Nat) (h : encStrRaw s = some bs) :
    1 ≤ bs.length := by
  unfold encStrRaw encStrHeader at h
  repeat' split at h
  all_goals first
  | (simp only [Option.map_some', Option.some.injEq] at h; subst h;
     simp [beBytes_length])
  | simp at h

theorem encBinRaw_length_pos (d : List Nat) (bs : List Nat) (h : encBinRaw d = some bs) :
    1 ≤ bs.length := by
  unfold encBinRaw at h
  repeat' split at h
  all_goals first
  | (simp only [Option.some.injEq] at h; subst h; simp [beBytes_length])
  | simp at h

mutual

theorem height_le_packb : ∀ v : JValue, ∀ bs, packb v = some bs → height v ≤ bs.length
  | .null, bs, h => by
    simp only [packb, Option.some.injEq] at h
    subst h
    simp [height]
  | .bool false, bs, h => by
    simp only [packb, Option.some.injEq] at h
    subst h
    simp [height]
  | .bool true, bs, h => by
    simp only [packb, Option.some.injEq] at h
    subst h
    simp [height]
  | .int n, bs, h => le_trans (by simp [height]) (encIntRaw_length_pos n bs h)
  | .float bits, bs, h => le_trans (by simp [height]) (encFloatRaw_length_pos bits bs h)
  | .str s, bs, h => le_trans (by simp [height]) (encStrRaw_length_pos s bs h)
  | .bin d, bs, h => le_trans (by simp [height]) (encBinRaw_length_pos d bs h)
  | .arr xs, bs, h => by
    simp only [packb] at h
    cases hh : encArrHeader xs.length with
    | none => rw [hh] at h; simp at h
    | some hdr =>
      cases hb : packList xs with
      | none => rw [hh, hb] at h; simp at h
      | some body =>
        rw [hh, hb] at h
        simp only [Option.some.injEq] at h
        subst h
        have h1 : heightList xs ≤ body.length := heightList_le_packList xs body hb
        have h2 : 1 ≤ hdr.length := by
          unfold encArrHeader at hh
          repeat' split at hh
          all_goals first
          | (simp only [Option.some.injEq] at hh; subst hh; simp [beBytes_length])
          | simp at hh
        simp only [height, List.length_append]
        omega
  | .map kvs, bs, h => by
    simp only [packb] at h
    cases hh : encMapHeader kvs.length with
    | none => rw [hh] at h; simp at h
    | some hdr =>
      cases hb : packPairs kvs with
      | none => rw [hh, hb] at h; simp at h
      | some body =>
        rw [hh, hb] at h
        simp only [Option.some.injEq] at h
        subst h
        have h1 : heightPairs kvs ≤ body.length := heightPairs_le_packPairs kvs body hb
        have h2 : 1 ≤ hdr.length := by
          unfold encMapHeader at hh
          repeat' split at hh
          all_goals first
          | (simp only [Option.some.injEq] at hh; subst hh; simp [beBytes_length])
          | simp at hh
        simp only [height, List.length_append]
        omega
  | .ndarray dt sh d, bs, h => by
    simp only [packb] at h
    cases hdt : encStrRaw dt with
    | none => rw [hdt] at h; simp at h
    | some edt =>
      cases hsh : encArrHeader sh.length with
      | none => rw [hdt, hsh] at h; simp at h
      | some eshHdr =>
        cases hshb : packNatList sh with
        | none => rw [hdt, hsh, hshb] at h; simp at h
        | some eshBody =>
          cases hd : encBinRaw d with
          | none => rw [hdt, hsh, hshb, hd] at h; simp at h
          | some ed =>
            rw [hdt, hsh, hshb, hd] at h
            simp only [Option.some.injEq] at h
            subst h
            simp only [height, List.length_append, List.length_cons, binKeyEnc,
              List.length_nil]
            omega

theorem heightList_le_packList : ∀ xs : List JValue, ∀ bs, packList xs = some bs →
    heightList xs ≤ bs.length
  | [], bs, h => by
    simp only [packList, Option.some.injEq] at h
    subst h
    simp [heightList]
  | x :: xs, bs, h => by
    simp only [packList] at h
    cases hx : packb x with
    | none => rw [hx] at h; simp at h
    | some bx =>
      cases hxs : packList xs with
      | none => rw [hx, hxs] at h; simp at h
      | some bxs =>
        rw [hx, hxs] at h
        simp only [Option.some.injEq] at h
        subst h
        have h1 := height_le_packb x bx hx
        have h2 := heightList_le_packList xs bxs hxs
        simp only [heightList, List.length_append, max_le_iff]
        omega

theorem heightPairs_le_packPairs : ∀ kvs : List (JValue × JValue), ∀ bs,
    packPairs kvs = some bs → heightPairs kvs ≤ bs.length
  | [], bs, h => by
    simp only [packPairs, Option.some.injEq] at h
    subst h
    simp [heightPairs]
  | (k, v) :: kvs, bs, h => by
    simp only [packPairs] at h
    cases hk : packb k with
    | none => rw [hk] at h; simp at h
    | some bk =>
      cases hv : packb v with
      | none => rw [hk, hv] at h; simp at h
      | some bv =>
        cases hkvs : packPairs kvs with
        | none => rw [hk, hv, hkvs] at h; simp at h
        | some bkvs =>
          rw [hk, hv, hkvs] at h
          simp only [Option.some.injEq] at h
          subst h
          have h1 := height_le_packb k bk hk
          have h2 := height_le_packb v bv hv
          have h3 := heightPairs_le_packPairs kvs bkvs hkvs
          simp only [heightPairs, List.length_append, max_le_iff]
          omega

end

/-- The central codec fact: `unpackb` inverts `packb` on every wellformed
value the pipeline can carry (including numpy arrays via the
`msgpack_numpy` hook pair). -/
theorem unpackb_packb (v : JValue) (hok : mpOk v = true) (bs : List Nat)
    (h : packb v = some bs) : unpackb bs = some v := by
  unfold unpackb
  have hd := decodeVal_packb v hok bs h (bs.length + 1) []
    (le_trans (height_le_packb v bs h) (by omega))
  rw [List.append_nil] at hd
  rw [hd]

/-! ## Transport retry layer: `_make_request_with_retry`
(Test_setChr8_Evaluator/evaluator_content_handler.py lines 15-53)

The network is a function from attempt number to what that attempt does:
a 2xx response is returned, a non-2xx response makes `raise_for_status`
raise `HTTPError` (re-raised immediately, no retry), and a connection-level
`RequestException` retries after a constant `RETRY_INTERVAL`-second wait
while `attempt < MAX_RETRIES`, and is re-raised after the final attempt
(the terminal message reports the attempt count, carried here in the
outcome).  `proxies={"http": None, "https": None}` only affects routing and
is not modelled. -/

structure HttpResponse where
  statusCode : Nat
  contentTypeHeader : Option String
  content : List Nat
  text : String
  deriving DecidableEq

inductive AttemptResult where
  | success (r : HttpResponse)
  | httpError (r : HttpResponse)
  | connError (e : String)
  deriving DecidableEq

inductive RetryOutcome where
  | returned (r : HttpResponse)
  | raisedHTTP (r : HttpResponse)
  | raisedNet (e : String) (attemptsReported : Nat)
  | fellThroughNone
  deriving DecidableEq

structure RetryResult where
  outcome : RetryOutcome
  attempts : Nat
  waits : List Nat
  deriving DecidableEq

/-- The `for attempt in range(1, MAX_RETRIES + 1)` loop body over the
remaining attempt numbers. -/
def retryGo (behavior : Nat → AttemptResult) (maxRetries interval : Nat) :
    List Nat → RetryResult
  | [] => ⟨.fellThroughNone, 0, []⟩
  | a :: rest =>
    match behavior a with
    | .success r => ⟨.returned r, 1, []⟩
    | .httpError r => ⟨.raisedHTTP r, 1, []⟩
    | .connError e =>
      if a < maxRetries then
        let res := retryGo behavior maxRetries interval rest
        ⟨res.outcome, res.attempts + 1, interval :: res.waits⟩
      else ⟨.raisedNet e a, 1, []⟩

/-- Model of `_make_request_with_retry`: attempts numbered `1 .. MAX_RETRIES`. -/
def make_request_with_retry (behavior : Nat → AttemptResult)
    (maxRetries interval : Nat) : RetryResult :=
  retryGo behavior maxRetries interval (List.range' 1 maxRetries)

/-! ## Format negotiator: `negotiate_formats`
(evaluator_content_handler.py lines 55-96)

The HTTP fetch of `/formats` and `response.json()` (lines 57-64) happen in
the orchestrator model; this pure core is lines 66-96: lower-case both
predictor lists, append `application/json` when missing, then pick each
direction independently. -/

structure NegotiationResult where
  requestFmt : String
  responseFmt : String
  warnings : List String
  deriving DecidableEq

def reqFormatWarning (p : String) : String :=
  "WARNING: REQUEST_FORMAT=" ++ p ++ " not supported by Predictor; Using JSON"

def respFormatWarning (p : String) : String :=
  "WARNING: RESPONSE_FORMAT=" ++ p ++ " not supported by Predictor; Using JSON"

def addJsonIfMissing (fmts : List String) : List String :=
  if "application/json" ∈ fmts then fmts else fmts ++ ["application/json"]

def negotiate_formats (reqPref respPref : String)
    (predReqRaw predRespRaw : List String) : NegotiationResult :=
  let pred_request_fmts := addJsonIfMissing (predReqRaw.map pyLower)
  let pred_response_fmts := addJsonIfMissing (predRespRaw.map pyLower)
  let reqPick :=
    if reqPref ∈ pred_request_fmts then (reqPref, ([] : List String))
    else ("application/json",
      if reqPref ≠ "application/json" then [reqFormatWarning reqPref] else [])
  let respPick :=
    if respPref ∈ pred_response_fmts then (respPref, ([] : List String))
    else ("application/json",
      if respPref ≠ "application/json" then [respFormatWarning respPref] else [])
  ⟨reqPick.1, respPick.1, reqPick.2 ++ respPick.2⟩

/-! ## Python's substring `in` operator on strings -/

def charsStartWith : List Char → List Char → Bool
  | [], _ => true
  | _ :: _, [] => false
  | a :: as, b :: bs => a == b && charsStartWith as bs

def charsContain (needle : List Char) : List Char → Bool
  | [] => charsStartWith needle []
  | b :: bs => charsStartWith needle (b :: bs) || charsContain needle bs

/-- Python `needle in haystack` for strings (substring containment). -/
def pyInStr (needle haystack : String) : Bool :=
  charsContain needle.data haystack.data

/-! ## JSON, as `json.loads` / `json.dumps(..., ensure_ascii=False, indent=4)`

The parser covers the JSON grammar the pipeline actually exchanges:
`null`, booleans, integers, strings (with the standard escapes and
non-surrogate `\uXXXX`), arrays and objects (duplicate keys overwrite, as
Python dicts do).  Decimal float literals and surrogate-pair escapes are
outside the model and parse as failures — no claim in this development
depends on a payload containing them.  The serializer mirrors
`json.dumps(..., ensure_ascii=False, indent=4)`; Python floats (whose
shortest-repr decimal rendering is not modelled) and unserializable types
(`bytes`, `ndarray`, on which `json.dump` raises `TypeError`) dump as
`none`. -/

def quoteChar : Char := Char.ofNat 34

def backslashChar : Char := Char.ofNat 92

def lbraceChar : Char := Char.ofNat 123

def rbraceChar : Char := Char.ofNat 125

def jsonWsChar (c : Char) : Bool :=
  c == ' ' || c == Char.ofNat 9 || c == Char.ofNat 10 || c == Char.ofNat 13

def skipWs : List Char → List Char
  | [] => []
  | c :: cs => if jsonWsChar c then skipWs cs else c :: cs

def hexVal (c : Char) : Option Nat :=
  if 48 ≤ c.toNat && c.toNat ≤ 57 then some (c.toNat - 48)
  else if 97 ≤ c.toNat && c.toNat ≤ 102 then some (c.toNat - 87)
  else if 65 ≤ c.toNat && c.toNat ≤ 70 then some (c.toNat - 55)
  else none

def isDigitChar (c : Char) : Bool := 48 ≤ c.toNat && c.toNat ≤ 57

/-- Parse the remainder of a JSON string literal (opening quote already
consumed); returns the decoded characters and the rest. -/
def parseJStr : Nat → List Char → Option (List Char × List Char)
  | 0, _ => none
  | _ + 1, [] => none
  | fuel + 1, c :: cs =>
    if c == quoteChar then some ([], cs)
    else if c == backslashChar then
      match cs with
      | [] => none
      | e :: cs2 =>
        if e == quoteChar then
          (parseJStr fuel cs2).map (fun p => (quoteChar :: p.1, p.2))
        else if e == backslashChar then
          (parseJStr fuel cs2).map (fun p => (backslashChar :: p.1, p.2))
        else if e == '/' then
          (parseJStr fuel cs2).map (fun p => ('/' :: p.1, p.2))
        else if e == 'b' then
          (parseJStr fuel cs2).map (fun p => (Char.ofNat 8 :: p.1, p.2))
        else if e == 'f' then
          (parseJStr fuel cs2).map (fun p => (Char.ofNat 12 :: p.1, p.2))
        else if e == 'n' then
          (parseJStr fuel cs2).map (fun p => (Char.ofNat 10 :: p.1, p.2))
        else if e == 'r' then
          (parseJStr fuel cs2).map (fun p => (Char.ofNat 13 :: p.1, p.2))
        else if e == 't' then
          (parseJStr fuel cs2).map (fun p => (Char.ofNat 9 :: p.1, p.2))
        else if e == 'u' then
          match cs2 with
          | h1 :: h2 :: h3 :: h4 :: cs3 =>
            match hexVal h1, hexVal h2, hexVal h3, hexVal h4 with
            | some d1, some d2, some d3, some d4 =>
              let cp := ((d1 * 16 + d2) * 16 + d3) * 16 + d4
              if scalarOk cp then
                (parseJStr fuel cs3).map (fun p => (Char.ofNat cp :: p.1, p.2))
              else none
            | _, _, _, _ => none
          | _ => none
        else none
    else if c.toNat < 32 then none
    else (parseJStr fuel cs).map (fun p => (c :: p.1, p.2))

def takeDigits : List Char → List Char × List Char
  | [] => ([], [])
  | c :: cs =>
    if isDigitChar c then
      let p := takeDigits cs
      (c :: p.1, p.2)
    else ([], c :: cs)

def digitsToNat (ds : List Char) : Nat :=
  ds.foldl (fun acc c => acc * 10 + (c.toNat - 48)) 0

/-- Parse a JSON number; only integer literals are modelled (a `.`, `e` or
`E` continuation makes the parse fail, see the section comment). -/
def parseJNum (cs : List Char) : Option (JValue × List Char) :=
  match cs with
  | '-' :: cs2 =>
    match takeDigits cs2 with
    | ([], _) => none
    | (ds, rest) =>
      match rest with
      | c :: _ =>
        if c == '.' || c == 'e' || c == 'E' then none
        else some (.int (-(Int.ofNat (digitsToNat ds))), rest)
      | [] => some (.int (-(Int.ofNat (digitsToNat ds))), rest)
  | _ =>
    match takeDigits cs with
    | ([], _) => none
    | (ds, rest) =>
      match rest with
      | c :: _ =>
        if c == '.' || c == 'e' || c == 'E' then none
        else some (.int (Int.ofNat (digitsToNat ds)), rest)
      | [] => some (.int (Int.ofNat (digitsToNat ds)), rest)

mutual

def parseJVal : Nat → List Char → Option (JValue × List Char)
  | 0, _ => none
  | fuel + 1, cs =>
    match skipWs cs with
    | [] => none
    | c :: rest =>
      if c == lbraceChar then parseJObj fuel rest []
      else if c == '[' then parseJArr fuel rest
      else if c == quoteChar then
        (parseJStr (fuel + 1) rest).map (fun p => (.str (String.mk p.1), p.2))
      else if c == 't' then
        match rest with
        | 'r' :: 'u' :: 'e' :: rest2 => some (.bool true, rest2)
        | _ => none
      else if c == 'f' then
        match rest with
        | 'a' :: 'l' :: 's' :: 'e' :: rest2 => some (.bool false, rest2)
        | _ => none
      else if c == 'n' then
        match rest with
        | 'u' :: 'l' :: 'l' :: rest2 => some (.null, rest2)
        | _ => none
      else if c == '-' || isDigitChar c then parseJNum (c :: rest)
      else none

/-- Object members after `{`, accumulating into a Python dict
(`dictSet`: later duplicate keys overwrite earlier ones). -/
def parseJObj : Nat → List Char → List (JValue × JValue) →
    Option (JValue × List Char)
  | 0, _, _ => none
  | fuel + 1, cs, acc =>
    match skipWs cs with
    | [] => none
    | c :: rest =>
      if c == rbraceChar then
        if acc.isEmpty then some (.map [], rest) else none
      else if c == quoteChar then
        match parseJStr (fuel + 1) rest with
        | none => none
        | some (key, rest2) =>
          match skipWs rest2 with
          | ':' :: rest3 =>
            match parseJVal fuel rest3 with
            | none => none
            | some (v, rest4) =>
              let acc2 := dictSet acc (.str (String.mk key)) v
              match skipWs rest4 with
              | ',' :: rest5 => parseJObj fuel rest5 acc2
              | c2 :: rest5 =>
                if c2 == rbraceChar then some (.map acc2, rest5) else none
              | [] => none
          | _ => none
      else none

def parseJArr : Nat → List Char → Option (JValue × List Char)
  | 0, _ => none
  | fuel + 1, cs =>
    match skipWs cs with
    | [] => none
    | c :: rest =>
      if c == ']' then some (.arr [], rest)
      else
        match parseJArrItems fuel cs with
        | some (xs, rest2) => some (.arr xs, rest2)
        | none => none

def parseJArrItems : Nat → List Char → Option (List JValue × List Char)
  | 0, _ => none
  | fuel + 1, cs =>
    match parseJVal fuel cs with
    | none => none
    | some (v, rest) =>
      match skipWs rest with
      | ',' :: rest2 =>
        match parseJArrItems fuel rest2 with
        | some (xs, rest3) => some (v :: xs, rest3)
        | none => none
      | ']' :: rest2 => some ([v], rest2)
      | _ => none

end

/-- Model of `json.loads` on UTF-8 bytes (the whole buffer must be one JSON value,
up to surrounding whitespace). -/
def jsonParseBytes (bs : List Nat) : Option JValue :=
  match utf8DecodeAll bs with
  | none => none
  | some cs =>
    match parseJVal (4 * cs.length + 16) cs with
    | some (v, rest) => if (skipWs rest).isEmpty then some v else none
    | none => none

def hexDigitChar (n : Nat) : Char :=
  if n < 10 then Char.ofNat (48 + n) else Char.ofNat (87 + n)

def escapeJChar (c : Char) : List Char :=
  if c == quoteChar then [backslashChar, quoteChar]
  else if c == backslashChar then [backslashChar, backslashChar]
  else if c.toNat == 8 then [backslashChar, 'b']
  else if c.toNat == 9 then [backslashChar, 't']
  else if c.toNat == 10 then [backslashChar, 'n']
  else if c.toNat == 12 then [backslashChar, 'f']
  else if c.toNat == 13 then [backslashChar, 'r']
  else if c.toNat < 32 then
    [backslashChar, 'u', '0', '0', hexDigitChar (c.toNat / 16), hexDigitChar (c.toNat % 16)]
  else [c]

def jsonQuote (s : String) : String :=
  String.mk (quoteChar :: s.data.flatMap escapeJChar ++ [quoteChar])

/-- Model of the `json.dumps` key coercion: strings stay, int/bool/null keys become
their string forms, anything else raises `TypeError`. -/
def jsonKeyStr : JValue → Option String
  | .str s => some (jsonQuote s)
  | .int n => some (jsonQuote (toString n))
  | .bool true => some (jsonQuote "true")
  | .bool false => some (jsonQuote "false")
  | .null => some (jsonQuote "null")
  | _ => none

def indentStr (lvl : Nat) : String := String.mk (List.replicate (4 * lvl) ' ')

mutual

/-- Model of `json.dumps(v, ensure_ascii=False, indent=4)` at nesting level `lvl`. -/
def jsonDumpIndent : JValue → Nat → Option String
  | .null, _ => some "null"
  | .bool true, _ => some "true"
  | .bool false, _ => some "false"
  | .int n, _ => some (toString n)
  | .float _, _ => none
  | .str s, _ => some (jsonQuote s)
  | .bin _, _ => none
  | .ndarray _ _ _, _ => none
  | .arr [], _ => some "[]"
  | .arr (x :: xs), lvl =>
    match jsonDumpItems (x :: xs) (lvl + 1) with
    | some body => some ("[\n" ++ body ++ "\n" ++ indentStr lvl ++ "]")
    | none => none
  | .map [], _ => some "\x7b\x7d"
  | .map (kv :: kvs), lvl =>
    match jsonDumpPairs (kv :: kvs) (lvl + 1) with
    | some body => some ("\x7b\n" ++ body ++ "\n" ++ indentStr lvl ++ "\x7d")
    | none => none

def jsonDumpItems : List JValue → Nat → Option String
  | [], _ => some ""
  | [x], lvl =>
    match jsonDumpIndent x lvl with
    | some s => some (indentStr lvl ++ s)
    | none => none
  | x :: y :: xs, lvl =>
    match jsonDumpIndent x lvl, jsonDumpItems (y :: xs) lvl with
    | some s, some r => some (indentStr lvl ++ s ++ ",\n" ++ r)
    | _, _ => none

def jsonDumpPairs : List (JValue × JValue) → Nat → Option String
  | [], _ => some ""
  | [(k, v)], lvl =>
    match jsonKeyStr k, jsonDumpIndent v lvl with
    | some ks, some vs => some (indentStr lvl ++ ks ++ ": " ++ vs)
    | _, _ => none
  | (k, v) :: kv2 :: kvs, lvl =>
    match jsonKeyStr k, jsonDumpIndent v lvl, jsonDumpPairs (kv2 :: kvs) lvl with
    | some ks, some vs, some r => some (indentStr lvl ++ ks ++ ": " ++ vs ++ ",\n" ++ r)
    | _, _, _ => none

end

/-! ## Response decoder: `deserialize_response`
(evaluator_content_handler.py lines 123-160)

Dispatch is on the *response's own* `Content-Type` header (lowercased), not
on the negotiated format, which is consulted only for the mismatch warning
(Python truthiness: a `None`/empty negotiated format suppresses the check).
A decode failure raises `ValueError`, embedded as `.error`. -/

def mismatchWarning (actual negotiated : String) : String :=
  "Warning: Response format " ++ actual ++ " does NOT match negotiated format "
    ++ negotiated

def decodeFailureMsg : String := "Failed to decode predictor response"

def deserialize_response (resp : HttpResponse) (negotiatedRespFmt : String) :
    Except String JValue × List String :=
  let response_fmt_actual := pyLower (resp.contentTypeHeader.getD "")
  if response_fmt_actual ≠ "" then
    let warns :=
      if negotiatedRespFmt ≠ "" && !(pyInStr negotiatedRespFmt response_fmt_actual)
      then [mismatchWarning response_fmt_actual negotiatedRespFmt]
      else []
    if pyInStr "application/msgpack" response_fmt_actual
        || pyInStr "application/msgpack-numpy" response_fmt_actual then
      (match unpackb resp.content with
       | some v => .ok v
       | none => .error decodeFailureMsg, warns)
    else
      (match jsonParseBytes resp.content with
       | some v => .ok v
       | none => .error decodeFailureMsg, warns)
  else
    (match jsonParseBytes resp.content with
     | some v => .ok v
     | none => .error decodeFailureMsg, [])

/-! ## Run orchestrator: `run_evaluator` and `__main__`
(Test_setChr9_Evaluator/evaluator_RestAPI.py)

The run's interactions with the outside world are an explicit environment:
the filesystem (which directories exist), the data loader's sequence count,
the outcome of the two HTTP calls (`/formats` GET and `/predict` POST, each
already filtered through the transport retry layer, so the possible
outcomes are a 2xx response, a raised `HTTPError` carrying a response, or a
raised connection-level `RequestException`), and whether each artifact
`open`/write raises `IOError`.  Observable actions are an event list;
Python exceptions escaping `run_evaluator` are the `Except` outcome, mapped
to exit codes by the `__main__` model.  Paths are component lists;
`os.makedirs(..., exist_ok=True)` adds every ancestor of the target.
The request payload's serialized bytes (lines 109-112) affect no claim and
are not tracked; the loader's result is summarized by its sequence count. -/

inductive CallOutcome where
  | ok (r : HttpResponse)
  | httpError (r : HttpResponse)
  | netError
  deriving DecidableEq

inductive PyExc where
  | valueError (msg : String)
  | requestException
  | unboundLocal (name : String)
  | typeError
  | attributeError
  deriving DecidableEq

inductive Event where
  | mkdirOutput
  | loadData
  | httpGet (path : String)
  | httpPost (path : String)
  | stderrLine (s : String)
  | taskCountWarning (idx npreds expected : Nat)
  | persistJson (path : List String) (content : String) (payload : JValue)
  | persistMsgpack (path : List String) (content : List Nat) (payload : JValue)
  | scoring (payload : JValue) (fmt : String)
  deriving DecidableEq

structure Config where
  requestFormat : String
  responseFormat : String
  outputFilenameBase : String
  deriving DecidableEq

/-- The Test_setChr9 `config.py` values used by the orchestrator. -/
def chr9Config : Config :=
  { requestFormat := "application/msgpack"
    responseFormat := "application/msgpack-numpy"
    outputFilenameBase := "ORCA_TestChr9_predictions_chr9_sequence_coordinates" }

structure RunEnv where
  fs : List (List String)
  numSequences : Nat
  formatsCall : CallOutcome
  predictCall : CallOutcome
  jsonWriteOk : Bool
  msgpackWriteOk : Bool
  deriving DecidableEq

/-- All nonempty ancestor paths that `os.makedirs` ensures exist. -/
def pathAncestors (dir : List String) : List (List String) :=
  (List.range dir.length).map (fun i => dir.take (i + 1))

/-- Python `str.replace(" ", "_")` (single-character pattern). -/
def sanitizeName (s : String) : String :=
  String.mk (s.data.map (fun c => if c == ' ' then '_' else c))

/-- Line 89: `response_payload.get("predictor_name", "UnknownPredictor")
.replace(" ", "_")`; a non-dict payload or non-string name raises
`AttributeError`. -/
def getPredictorName (payload : JValue) : Except PyExc String :=
  match payload with
  | .map kvs =>
    match dictGet kvs (.str "predictor_name") with
    | none => .ok (sanitizeName "UnknownPredictor")
    | some (.str s) => .ok (sanitizeName s)
    | some _ => .error .attributeError
  | _ => .error .attributeError

/-- Lines 96-107: one warning per prediction task whose prediction count
differs from the number of submitted sequences.  (Payload shapes on which
the Python would raise are summarized as producing no warnings; no claim
exercises them.) -/
def taskCountWarnings (payload : JValue) (totalSequences : Nat) : List Event :=
  let tasks :=
    match payload with
    | .map kvs =>
      match dictGet kvs (.str "prediction_tasks") with
      | some (.arr ts) => ts
      | _ => []
    | _ => []
  tasks.enum.filterMap (fun ti =>
    let nPreds :=
      match ti.2 with
      | .map tkvs =>
        match dictGet tkvs (.str "predictions") with
        | some (.map preds) => preds.length
        | some (.arr preds) => preds.length
        | _ => 0
      | _ => 0
    if nPreds ≠ totalSequences then
      some (.taskCountWarning (ti.1 + 1) nPreds totalSequences)
    else none)

/-- Lines 64-72: placeholder payload when the error body cannot be decoded;
carries the status code and the raw body text truncated to 500 characters. -/
def errorPlaceholder (status : Nat) (text : String) : JValue :=
  .map [(.str "predictor_name", .str "UnknownPredictor_ErrorResponse"),
        (.str "error", .arr [.map [(.str "server_error",
          .str ("Failed to decode error response (Status " ++ toString status
            ++ "). Body (truncated): " ++ String.mk (text.data.take 500) ++ "..."))]])]

/-- Lines 81-86: placeholder payload when no response payload exists at all. -/
def noResponsePlaceholder : JValue :=
  .map [(.str "predictor_name", .str "UnknownPredictor_NoResponse"),
        (.str "error", .arr [.map [(.str "evaluator_error",
          .str "No response payload could be processed after request.")]])]

instance {e a : Type} [DecidableEq e] [DecidableEq a] : DecidableEq (Except e a) :=
  fun x y =>
    match x, y with
    | .ok u, .ok w =>
      if h : u = w then isTrue (by rw [h]) else isFalse (fun hh => h (Except.ok.inj hh))
    | .error u, .error w =>
      if h : u = w then isTrue (by rw [h]) else isFalse (fun hh => h (Except.error.inj hh))
    | .ok _, .error _ => isFalse (fun hh => Except.noConfusion hh)
    | .error _, .ok _ => isFalse (fun hh => Except.noConfusion hh)

inductive SaveStatus where
  | saved
  | earlyReturn
  deriving DecidableEq

structure SaveResult where
  events : List Event
  outcome : Except PyExc SaveStatus
  deriving DecidableEq

def fatalSaveMsg (path : List String) : String :=
  "FATAL: Could not save predictions to " ++ String.intercalate "/" path ++ "."

/-- Lines 90-94 and 108-126: choose the artifact file and format from the
response's actual declared Content-Type (already lowercased by the caller,
as line 108 does), write it, and on `IOError` print the FATAL message to
stderr and `return` (an early, *successful* return from `run_evaluator`). -/
def save_payload (cfg : Config) (outputDir : List String) (predictorName : String)
    (payload : JValue) (responseFmtActual : String)
    (jsonWriteOk msgpackWriteOk : Bool) : SaveResult :=
  let fnJson := cfg.outputFilenameBase ++ "_from_" ++ predictorName ++ ".json"
  let fnMsgpack := cfg.outputFilenameBase ++ "_from_" ++ predictorName ++ ".msgpack"
  let pathJson := outputDir ++ [fnJson]
  let pathMsgpack := outputDir ++ [fnMsgpack]
  if responseFmtActual == "application/msgpack-numpy" then
    match packb payload with
    | none => ⟨[], .error .typeError⟩
    | some contents =>
      if msgpackWriteOk then ⟨[.persistMsgpack pathMsgpack contents payload], .ok .saved⟩
      else ⟨[.stderrLine (fatalSaveMsg pathJson)], .ok .earlyReturn⟩
  else
    match jsonDumpIndent payload 0 with
    | none => ⟨[], .error .typeError⟩
    | some contents =>
      if jsonWriteOk then ⟨[.persistJson pathJson contents payload], .ok .saved⟩
      else ⟨[.stderrLine (fatalSaveMsg pathJson)], .ok .earlyReturn⟩

structure RunResult where
  fs : List (List String)
  events : List Event
  outcome : Except PyExc Unit
  deriving DecidableEq

/-- Python `None` filtering: a decoded top-level JSON/msgpack `null` is
Python `None`, which line 78's `is None` check catches. -/
def pyNoneOpt (v : JValue) : Option JValue :=
  if v = .null then none else some v

def fatalNoRespMsg : String := "FATAL: No response payload received or processed."

def errBodyDecodeMsg (m : String) : String :=
  "Could not decode the error response body: " ++ m

/-- Lines 78-132: the common tail of `run_evaluator` after the try/except.
`respLocal` is the orchestrator's local variable `response`: bound only on
the success path; line 108 reads it unconditionally, so `none` here raises
`UnboundLocalError` (modelled as `.unboundLocal "response"`). -/
def runTail (cfg : Config) (env : RunEnv) (outputDir : List String)
    (payloadOpt : Option JValue) (respLocal : Option HttpResponse)
    (isSuccess : Bool) (evs : List Event) : List Event × Except PyExc Unit :=
  let pe : JValue × List Event :=
    match payloadOpt with
    | some p => (p, evs)
    | none => (noResponsePlaceholder, evs ++ [.stderrLine fatalNoRespMsg])
  let payload := pe.1
  let evs := pe.2
  match getPredictorName payload with
  | .error e => (evs, .error e)
  | .ok predictorName =>
    let evs := evs ++ taskCountWarnings payload env.numSequences
    match respLocal with
    | none => (evs, .error (.unboundLocal "response"))
    | some resp =>
      let response_fmt_actual := pyLower (resp.contentTypeHeader.getD "")
      let s := save_payload cfg outputDir predictorName payload response_fmt_actual
        env.jsonWriteOk env.msgpackWriteOk
      let evs := evs ++ s.events
      match s.outcome with
      | .error e => (evs, .error e)
      | .ok .earlyReturn => (evs, .ok ())
      | .ok .saved =>
        if isSuccess then (evs ++ [.scoring payload response_fmt_actual], .ok ())
        else (evs, .ok ())

/-- Lines 52-72 (`except HTTPError`): decode the error body with the
negotiated response format when negotiation completed, else JSON; an
undecodable body is replaced by the synthetic placeholder.  `response` was
never bound on this path. -/
def runHTTPErrorPath (cfg : Config) (env : RunEnv) (outputDir : List String)
    (respFmtOpt : Option String) (er : HttpResponse) (evs : List Event) :
    List Event × Except PyExc Unit :=
  let fmtForError := respFmtOpt.getD "application/json"
  let pd :=
    match (deserialize_response er fmtForError).1 with
    | .ok v => (pyNoneOpt v, ([] : List Event))
    | .error m =>
      (some (errorPlaceholder er.statusCode er.text),
       [Event.stderrLine (errBodyDecodeMsg m)])
  runTail cfg env outputDir pd.1 none false (evs ++ pd.2)

/-- Model of `supported.get(key, [])` with the list-of-strings shape the
comprehension at lines 66-67 needs; other shapes raise. -/
def getFormatList (supported : JValue) (key : String) : Except PyExc (List String) :=
  match supported with
  | .map kvs =>
    match dictGet kvs (.str key) with
    | none => .ok []
    | some (.arr xs) =>
      xs.foldr (fun x acc =>
        match x, acc with
        | .str s, .ok rest => .ok (s :: rest)
        | _, .ok _ => .error .attributeError
        | _, .error e => .error e)
        (Except.ok [] : Except PyExc (List String))
    | some _ => .error .typeError
  | _ => .error .attributeError

/-- Lines 62-67: `response.json()` on the `/formats` body plus field
extraction (an unparsable body raises `requests.JSONDecodeError`, a
`ValueError`, which nothing in `run_evaluator` catches). -/
def parseFormatsBody (bs : List Nat) : Except PyExc (List String × List String) :=
  match jsonParseBytes bs with
  | none => .error (.valueError "Failed to parse formats response")
  | some supported =>
    match getFormatList supported "predictor_supported_request_formats" with
    | .error e => .error e
    | .ok reqs =>
      match getFormatList supported "predictor_supported_response_formats" with
      | .error e => .error e
      | .ok resps => .ok (reqs, resps)

/-- Lines 27-132 of `run_evaluator`: everything after the data load. -/
def run_core (cfg : Config) (env : RunEnv) (outputDir : List String) :
    List Event × Except PyExc Unit :=
  match env.formatsCall with
    | .netError => ([.httpGet "/formats"], .error .requestException)
    | .httpError r =>
      -- negotiation itself raised HTTPError: resp_fmt is still None
      runHTTPErrorPath cfg env outputDir none r [.httpGet "/formats"]
    | .ok r =>
      match parseFormatsBody r.content with
      | .error e => ([.httpGet "/formats"], .error e)
      | .ok lists =>
        let neg := negotiate_formats cfg.requestFormat cfg.responseFormat
          lists.1 lists.2
        match env.predictCall with
        | .netError =>
          ([.httpGet "/formats", .httpPost "/predict"], .error .requestException)
        | .httpError er =>
          runHTTPErrorPath cfg env outputDir (some neg.responseFmt) er
            [.httpGet "/formats", .httpPost "/predict"]
        | .ok resp =>
          match (deserialize_response resp neg.responseFmt).1 with
          | .error m =>
            ([.httpGet "/formats", .httpPost "/predict"], .error (.valueError m))
          | .ok v =>
            runTail cfg env outputDir (pyNoneOpt v) (some resp) true
              [.httpGet "/formats", .httpPost "/predict"]

/-- Model of `run_evaluator(predictor_ip, predictor_port, output_dir)`: lines 19-22
ensure the output directory (with ancestors) exists, line 25 loads the
input data, then the request/response core runs. -/
def run_evaluator (cfg : Config) (env : RunEnv) (outputDir : List String) :
    RunResult :=
  let dirExisted := outputDir ∈ env.fs
  let fs1 := if dirExisted then env.fs else pathAncestors outputDir ++ env.fs
  let ev0 : List Event := if dirExisted then [] else [.mkdirOutput]
  let core := run_core cfg env outputDir
  ⟨fs1, ev0 ++ Event.loadData :: core.1, core.2⟩

structure MainResult where
  events : List Event
  exitCode : Nat
  deriving DecidableEq

/-- The `__main__` block (lines 135-171): run, then map exceptions to exit
codes with a categorized stderr message. -/
def evaluator_main (cfg : Config) (env : RunEnv) (outputDir : List String) :
    MainResult :=
  let r := run_evaluator cfg env outputDir
  match r.outcome with
  | .ok _ => ⟨r.events, 0⟩
  | .error (.valueError m) =>
    ⟨r.events ++ [.stderrLine ("FATAL ERROR (Data): " ++ m)], 1⟩
  | .error .requestException =>
    ⟨r.events ++ [.stderrLine "FATAL ERROR (Network): Could not connect to predictor."], 1⟩
  | .error (.unboundLocal name) =>
    ⟨r.events ++ [.stderrLine ("An unexpected fatal error occurred: local variable "
      ++ name ++ " referenced before assignment")], 1⟩
  | .error .typeError =>
    ⟨r.events ++ [.stderrLine "An unexpected fatal error occurred: TypeError"], 1⟩
  | .error .attributeError =>
    ⟨r.events ++ [.stderrLine "An unexpected fatal error occurred: AttributeError"], 1⟩

/-! ## Claim theorems -/

theorem retryGo_allConn (behavior : Nat → AttemptResult) (maxRetries interval : Nat)
    (es : Nat → String)
    (hbeh : ∀ i, 1 ≤ i → i ≤ maxRetries → behavior i = .connError (es i)) :
    ∀ k a, 1 ≤ k → 1 ≤ a → a + k = maxRetries + 1 →
      retryGo behavior maxRetries interval (List.range' a k) =
        ⟨.raisedNet (es maxRetries) maxRetries, k, List.replicate (k - 1) interval⟩ := by
  intro k
  induction k with
  | zero => omega
  | succ k ih =>
    intro a _ ha1 hsum
    rw [List.range'_succ]
    cases k with
    | zero =>
      have ha : a = maxRetries := by omega
      simp [retryGo, ha, hbeh maxRetries (by omega) le_rfl, List.range']
    | succ k =>
      have halt : a < maxRetries := by omega
      have hstep := ih (a + 1) (by omega) (by omega) (by omega)
      rw [show retryGo behavior maxRetries interval (a :: List.range' (a + 1) (k + 1)) =
          (match behavior a with
           | .success r => ⟨.returned r, 1, []⟩
           | .httpError r => ⟨.raisedHTTP r, 1, []⟩
           | .connError e =>
             if a < maxRetries then
               ⟨(retryGo behavior maxRetries interval (List.range' (a + 1) (k + 1))).outcome,
                (retryGo behavior maxRetries interval (List.range' (a + 1) (k + 1))).attempts + 1,
                interval ::
                  (retryGo behavior maxRetries interval (List.range' (a + 1) (k + 1))).waits⟩
             else ⟨.raisedNet e a, 1, []⟩) from rfl]
      rw [hbeh a ha1 (by omega)]
      simp only [halt, if_true, hstep]
      simp [List.replicate_succ]

/-- C3: in the transport retry function, a non-2xx HTTP response raises
immediately with a single attempt and no waits; under persistent
connection failure all `M = MAX_RETRIES` attempts run with a constant
`RETRY_INTERVAL` wait between consecutive attempts (`M - 1` waits), and the
last network error is re-raised carrying the reported attempt count `M`. -/
theorem C3_transport_retry (behavior : Nat → AttemptResult)
    (maxRetries interval : Nat) (hM : 1 ≤ maxRetries) :
    (∀ r, behavior 1 = .httpError r →
      make_request_with_retry behavior maxRetries interval =
        ⟨.raisedHTTP r, 1, []⟩) ∧
    (∀ es : Nat → String,
      (∀ i, 1 ≤ i → i ≤ maxRetries → behavior i = .connError (es i)) →
      make_request_with_retry behavior maxRetries interval =
        ⟨.raisedNet (es maxRetries) maxRetries, maxRetries,
          List.replicate (maxRetries - 1) interval⟩) := by
  constructor
  · intro r hr
    unfold make_request_with_retry
    obtain ⟨m, rfl⟩ : ∃ m, maxRetries = m + 1 := ⟨maxRetries - 1, by omega⟩
    rw [List.range'_succ]
    simp [retryGo, hr]
  · intro es hbeh
    unfold make_request_with_retry
    exact retryGo_allConn behavior maxRetries interval es hbeh maxRetries 1 hM
      (by omega) (by omega)

/-- Witness for C3 at the configured `MAX_RETRIES = 50`,
`RETRY_INTERVAL = 30`: persistent connection refusal makes all 50 attempts
with 49 thirty-second waits then re-raises reporting 50 attempts, while an
immediate 404-style status error raises at attempt 1 with no waits. -/
theorem C3_transport_retry_witness :
    make_request_with_retry (fun _ => .connError "connection refused") 50 30 =
      ⟨.raisedNet "connection refused" 50, 50, List.replicate 49 30⟩ ∧
    make_request_with_retry
      (fun _ => .httpError ⟨404, some "application/json", [], "not found"⟩) 50 30 =
      ⟨.raisedHTTP ⟨404, some "application/json", [], "not found"⟩, 1, []⟩ :=
  ⟨(C3_transport_retry _ 50 30 (by decide)).2 (fun _ => "connection refused")
      (fun _ _ _ => rfl),
    (C3_transport_retry _ 50 30 (by decide)).1 _ rfl⟩

theorem json_mem_addJson (l : List String) :
    "application/json" ∈ addJsonIfMissing l := by
  unfold addJsonIfMissing
  by_cases h : "application/json" ∈ l
  · simp [h]
  · simp [h]

/-- C4: the negotiator compares against the predictor lists lower-cased and
with `application/json` appended when missing (so JSON is always treated as
supported); each direction independently picks the local preference exactly
when it is in the corresponding processed list and falls back to
`application/json` otherwise, in which case (and only then) a warning
naming the rejected preference is emitted. -/
theorem C4_negotiator (reqPref respPref : String) (rl sl : List String) :
    ("application/json" ∈ addJsonIfMissing (rl.map pyLower) ∧
      "application/json" ∈ addJsonIfMissing (sl.map pyLower)) ∧
    (negotiate_formats reqPref respPref rl sl).requestFmt =
      (if reqPref ∈ addJsonIfMissing (rl.map pyLower) then reqPref
       else "application/json") ∧
    (negotiate_formats reqPref respPref rl sl).responseFmt =
      (if respPref ∈ addJsonIfMissing (sl.map pyLower) then respPref
       else "application/json") ∧
    (negotiate_formats reqPref respPref rl sl).warnings =
      ((if reqPref ∈ addJsonIfMissing (rl.map pyLower) then []
        else [reqFormatWarning reqPref]) ++
       (if respPref ∈ addJsonIfMissing (sl.map pyLower) then []
        else [respFormatWarning respPref])) ∧
    (∃ pre post, reqFormatWarning reqPref = pre ++ reqPref ++ post) ∧
    (∃ pre post, respFormatWarning respPref = pre ++ respPref ++ post) := by
  refine ⟨⟨json_mem_addJson _, json_mem_addJson _⟩, ?_, ?_, ?_, ?_, ?_⟩
  · by_cases h : reqPref ∈ addJsonIfMissing (rl.map pyLower) <;>
      simp [negotiate_formats, h]
  · by_cases h : respPref ∈ addJsonIfMissing (sl.map pyLower) <;>
      simp [negotiate_formats, h]
  · by_cases h1 : reqPref ∈ addJsonIfMissing (rl.map pyLower) <;>
      by_cases h2 : respPref ∈ addJsonIfMissing (sl.map pyLower)
    · simp [negotiate_formats, h1, h2]
    · have hne2 : respPref ≠ "application/json" := by
        intro he
        exact h2 (he ▸ json_mem_addJson (sl.map pyLower))
      simp [negotiate_formats, h1, h2, hne2]
    · have hne1 : reqPref ≠ "application/json" := by
        intro he
        exact h1 (he ▸ json_mem_addJson (rl.map pyLower))
      simp [negotiate_formats, h1, h2, hne1]
    · have hne1 : reqPref ≠ "application/json" := by
        intro he
        exact h1 (he ▸ json_mem_addJson (rl.map pyLower))
      have hne2 : respPref ≠ "application/json" := by
        intro he
        exact h2 (he ▸ json_mem_addJson (sl.map pyLower))
      simp [negotiate_formats, h1, h2, hne1, hne2]
  · exact ⟨"WARNING: REQUEST_FORMAT=", " not supported by Predictor; Using JSON", rfl⟩
  · exact ⟨"WARNING: RESPONSE_FORMAT=", " not supported by Predictor; Using JSON", rfl⟩

theorem charsStartWith_of_append (p q hs : List Char)
    (h : charsStartWith (p ++ q) hs = true) : charsStartWith p hs = true := by
  induction p generalizing hs with
  | nil => rfl
  | cons a as ih =>
    cases hs with
    | nil => simp [charsStartWith] at h
    | cons b bs =>
      simp only [List.cons_append, charsStartWith, Bool.and_eq_true] at h ⊢
      exact ⟨h.1, ih bs h.2⟩

theorem charsContain_of_append (p q : List Char) : ∀ hs : List Char,
    charsContain (p ++ q) hs = true → charsContain p hs = true := by
  intro hs
  induction hs with
  | nil =>
    intro h
    simp only [charsContain] at h ⊢
    cases p with
    | nil => rfl
    | cons a as => simp [charsStartWith] at h
  | cons b bs ih =>
    intro h
    simp only [charsContain, Bool.or_eq_true] at h ⊢
    rcases h with h | h
    · exact Or.inl (charsStartWith_of_append p q _ h)
    · exact Or.inr (ih h)

theorem pyInStr_msgpack_of_numpy (s : String)
    (h : pyInStr "application/msgpack-numpy" s = true) :
    pyInStr "application/msgpack" s = true := by
  unfold pyInStr at h ⊢
  have hsplit : ("application/msgpack-numpy").data =
      ("application/msgpack").data ++ ("-numpy").data := by decide
  rw [hsplit] at h
  exact charsContain_of_append _ _ _ h

/-- C5: `deserialize_response` warns exactly when a Content-Type header is
present and the negotiated format is nonempty and not contained in it, and
always decodes by the header's actual declared type: a header containing
`application/msgpack` (which both `application/msgpack` and
`application/msgpack-numpy` do) selects the numpy-extended msgpack decoder,
and every other case — unrecognized header or no header — decodes as JSON;
the negotiated format never influences which decoder runs. -/
theorem C5_deserialize_dispatch (resp : HttpResponse) (negotiated : String) :
    (deserialize_response resp negotiated).2 =
      (if pyLower (resp.contentTypeHeader.getD "") ≠ "" ∧
          (negotiated ≠ "" &&
            !(pyInStr negotiated (pyLower (resp.contentTypeHeader.getD "")))) = true
       then [mismatchWarning (pyLower (resp.contentTypeHeader.getD "")) negotiated]
       else []) ∧
    (deserialize_response resp negotiated).1 =
      (if pyInStr "application/msgpack" (pyLower (resp.contentTypeHeader.getD "")) = true
       then (match unpackb resp.content with
             | some v => .ok v
             | none => .error decodeFailureMsg)
       else (match jsonParseBytes resp.content with
             | some v => .ok v
             | none => .error decodeFailureMsg)) ∧
    (∀ negotiated2,
      (deserialize_response resp negotiated2).1 = (deserialize_response resp negotiated).1) ∧
    pyInStr "application/msgpack" "application/msgpack" = true ∧
    pyInStr "application/msgpack" "application/msgpack-numpy" = true := by
  refine ⟨?_, ?_, ?_, by decide, by decide⟩
  · by_cases hact : pyLower (resp.contentTypeHeader.getD "") ≠ ""
    · simp only [deserialize_response, hact, if_true]
      by_cases hmp : (pyInStr "application/msgpack"
            (pyLower (resp.contentTypeHeader.getD "")) = true ∨
          pyInStr "application/msgpack-numpy"
            (pyLower (resp.contentTypeHeader.getD "")) = true) <;>
        simp [hmp, hact]
    · simp [deserialize_response, hact]
  · by_cases hact : pyLower (resp.contentTypeHeader.getD "") ≠ ""
    · simp only [deserialize_response, hact, if_true]
      by_cases hmp :
          pyInStr "application/msgpack" (pyLower (resp.contentTypeHeader.getD "")) = true
      · simp [hmp, hact]
      · have hnum : pyInStr "application/msgpack-numpy"
            (pyLower (resp.contentTypeHeader.getD "")) = false := by
          by_contra hc
          simp only [Bool.not_eq_false] at hc
          exact hmp (pyInStr_msgpack_of_numpy _ hc)
        simp [hmp, hnum, hact]
    · have heq : pyLower (resp.contentTypeHeader.getD "") = "" := by
        simpa using hact
      have hmp0 : pyInStr "application/msgpack" "" = false := by decide
      rw [heq]
      simp [deserialize_response, heq, hmp0]
  · intro negotiated2
    by_cases hact : pyLower (resp.contentTypeHeader.getD "") ≠ ""
    · simp only [deserialize_response, hact, if_true]
      by_cases hmp : (pyInStr "application/msgpack"
            (pyLower (resp.contentTypeHeader.getD "")) ||
          pyInStr "application/msgpack-numpy"
            (pyLower (resp.contentTypeHeader.getD ""))) = true <;>
        simp [hmp, hact]
    · simp [deserialize_response, hact]

def keysAllStr : List (JValue × JValue) → Bool
  | [] => true
  | (k, _) :: rest =>
    (match k with | .str _ => true | _ => false) && keysAllStr rest

mutual

/-- The claim's "JSON-representable payload": string-keyed mappings (with
genuine-dict duplicate-free keys), strings, numbers, lists, nested
mappings, null (and booleans). -/
def jsonReprOk : JValue → Bool
  | .null => true
  | .bool _ => true
  | .int _ => true
  | .float _ => true
  | .str _ => true
  | .bin _ => false
  | .ndarray _ _ _ => false
  | .arr xs => jsonReprOkList xs
  | .map kvs => keysNodup kvs && keysAllStr kvs && jsonReprOkPairs kvs

def jsonReprOkList : List JValue → Bool
  | [] => true
  | x :: xs => jsonReprOk x && jsonReprOkList xs

def jsonReprOkPairs : List (JValue × JValue) → Bool
  | [] => true
  | (k, v) :: kvs => jsonReprOk k && jsonReprOk v && jsonReprOkPairs kvs

end

theorem dictGet_bin_none_of_keysAllStr :
    ∀ kvs : List (JValue × JValue), keysAllStr kvs = true → ∀ b : List Nat,
      dictGet kvs (.bin b) = none
  | [], _, _ => rfl
  | (k, v) :: rest, h, b => by
    simp only [keysAllStr, Bool.and_eq_true] at h
    cases k with
    | str s =>
      simp only [dictGet]
      rw [if_neg (by intro hc; cases hc)]
      exact dictGet_bin_none_of_keysAllStr rest h.2 b
    | null => simp at h
    | bool _ => simp at h
    | int _ => simp at h
    | float _ => simp at h
    | bin _ => simp at h
    | arr _ => simp at h
    | map _ => simp at h
    | ndarray _ _ _ => simp at h

mutual

theorem mpOk_of_jsonReprOk : ∀ v : JValue, jsonReprOk v = true → mpOk v = true
  | .null, _ => rfl
  | .bool _, _ => rfl
  | .int _, _ => rfl
  | .float _, _ => rfl
  | .str _, _ => rfl
  | .bin _, h => by simp [jsonReprOk] at h
  | .ndarray _ _ _, h => by simp [jsonReprOk] at h
  | .arr xs, h => by
    simp only [jsonReprOk] at h
    simpa [mpOk] using mpOkList_of_jsonReprOkList xs h
  | .map kvs, h => by
    simp only [jsonReprOk, Bool.and_eq_true] at h
    have hget := dictGet_bin_none_of_keysAllStr kvs h.1.2 (utf8Str "nd")
    simp only [mpOk, Bool.and_eq_true]
    exact ⟨⟨h.1.1, by simp [hget]⟩, mpOkPairs_of_jsonReprOkPairs kvs h.2⟩

theorem mpOkList_of_jsonReprOkList : ∀ xs : List JValue,
    jsonReprOkList xs = true → mpOkList xs = true
  | [], _ => rfl
  | x :: xs, h => by
    simp only [jsonReprOkList, Bool.and_eq_true] at h
    simp only [mpOkList, Bool.and_eq_true]
    exact ⟨mpOk_of_jsonReprOk x h.1, mpOkList_of_jsonReprOkList xs h.2⟩

theorem mpOkPairs_of_jsonReprOkPairs : ∀ kvs : List (JValue × JValue),
    jsonReprOkPairs kvs = true → mpOkPairs kvs = true
  | [], _ => rfl
  | (k, v) :: kvs, h => by
    simp only [jsonReprOkPairs, Bool.and_eq_true] at h
    simp only [mpOkPairs, Bool.and_eq_true]
    exact ⟨⟨mpOk_of_jsonReprOk k h.1.1, mpOk_of_jsonReprOk v h.1.2⟩,
      mpOkPairs_of_jsonReprOkPairs kvs h.2⟩

end

/-- A little-endian 64-bit word from eight bytes (numpy `<f8` layout). -/
def le64 (bs : List Nat) : Nat := bs.foldr (fun b acc => acc * 256 + b) 0

/-- IEEE-754 binary64 NaN: exponent all ones, nonzero mantissa. -/
def isNaN64 (w : Nat) : Bool :=
  (w / 2 ^ 52) % 2 ^ 11 == 2047 && !(w % 2 ^ 52 == 0)

/-- Indices of the NaN elements in a little-endian float64 data buffer. -/
def nanPositions64 (d : List Nat) : List Nat :=
  (List.range (d.length / 8)).filter (fun i => isNaN64 (le64 ((d.drop (8 * i)).take 8)))

/-- C8: a JSON-representable payload encoded with
`msgpack.packb(..., use_bin_type=True)` (the `application/msgpack` request
encoding of `get_predictions`) and decoded through `deserialize_response`
with a response whose Content-Type header is `application/msgpack` comes
back equal to the original, with no numeric-array nodes involved. -/
theorem C8_msgpack_roundtrip (v : JValue) (hv : jsonReprOk v = true)
    (bs : List Nat) (henc : packb v = some bs) :
    (deserialize_response
      { statusCode := 200, contentTypeHeader := some "application/msgpack",
        content := bs, text := "" } "application/msgpack").1 = .ok v := by
  have hdec := unpackb_packb v (mpOk_of_jsonReprOk v hv) bs henc
  have h1 : pyLower "application/msgpack" = "application/msgpack" := by decide
  have h2 : pyInStr "application/msgpack" "application/msgpack" = true := by decide
  simp [deserialize_response, h1, h2, hdec]

/-- C9: a payload containing a multi-dimensional float64 array with
embedded NaNs survives the numeric-array-extended msgpack round trip
(`msgpack_numpy` hooks active) exactly, so the decoded array has the same
shape, the same dtype string, and NaNs in exactly the same positions. -/
theorem C9_ndarray_roundtrip (name dt : String) (sh d : List Nat)
    (_hdim : 2 ≤ sh.length) (_hnan : nanPositions64 d ≠ []) (bs : List Nat)
    (henc : packb (.map [(.str name, .ndarray dt sh d)]) = some bs) :
    unpackb bs = some (.map [(.str name, .ndarray dt sh d)]) ∧
    (∀ dt2 sh2 d2, unpackb bs = some (.map [(.str name, .ndarray dt2 sh2 d2)]) →
      sh2 = sh ∧ dt2 = dt ∧ nanPositions64 d2 = nanPositions64 d) := by
  have hmp : mpOk (.map [(.str name, .ndarray dt sh d)]) = true := by
    have hget : dictGet [(JValue.str name, JValue.ndarray dt sh d)]
        (.bin (utf8Str "nd")) = none := rfl
    simp [mpOk, keysNodup, mpOkPairs, hget]
  have hrt := unpackb_packb _ hmp bs henc
  refine ⟨hrt, ?_⟩
  intro dt2 sh2 d2 heq
  rw [hrt] at heq
  simp only [Option.some.injEq, JValue.map.injEq, List.cons.injEq, Prod.mk.injEq,
    JValue.ndarray.injEq, and_true] at heq
  have hdt : dt = dt2 := by tauto
  have hsh : sh = sh2 := by tauto
  have hd : d = d2 := by tauto
  exact ⟨hsh.symm, hdt.symm, by rw [hd]⟩

def c8val : JValue :=
  .map [(.str "predictor_name", .str "P"),
        (.str "values", .arr [.int 1, .int (-2), .str "x", .null, .bool true])]

def c8bytes : List Nat :=
  [130, 174, 112, 114, 101, 100, 105, 99, 116, 111, 114, 95, 110, 97, 109, 101,
   161, 80, 166, 118, 97, 108, 117, 101, 115, 149, 1, 254, 161, 120, 192, 195]

/-- Witness for C8 at a concrete JSON-representable payload. -/
theorem C8_msgpack_roundtrip_witness :
    jsonReprOk c8val = true ∧ packb c8val = some c8bytes ∧
    (deserialize_response
      { statusCode := 200, contentTypeHeader := some "application/msgpack",
        content := c8bytes, text := "" } "application/msgpack").1 = .ok c8val :=
  ⟨by decide, by decide, C8_msgpack_roundtrip c8val (by decide) c8bytes (by decide)⟩

def c9data : List Nat :=
  [0, 0, 0, 0, 0, 0, 248, 127, 0, 0, 0, 0, 0, 0, 240, 63,
   0, 0, 0, 0, 0, 0, 240, 63, 0, 0, 0, 0, 0, 0, 240, 63]

def c9bytes : List Nat :=
  [129, 163, 97, 114, 114, 133, 196, 2, 110, 100, 195, 196, 4, 116, 121, 112,
   101, 163, 60, 102, 56, 196, 4, 107, 105, 110, 100, 196, 0, 196, 5, 115,
   104, 97, 112, 101, 146, 2, 2, 196, 4, 100, 97, 116, 97, 196, 32,
   0, 0, 0, 0, 0, 0, 248, 127, 0, 0, 0, 0, 0, 0, 240, 63,
   0, 0, 0, 0, 0, 0, 240, 63, 0, 0, 0, 0, 0, 0, 240, 63]

/-- Witness for C9: a 2×2 little-endian float64 array with a NaN in
position 0 round-trips through the numpy-extended msgpack encoding. -/
theorem C9_ndarray_roundtrip_witness :
    2 ≤ ([2, 2] : List Nat).length ∧ nanPositions64 c9data = [0] ∧
    unpackb c9bytes = some (.map [(.str "arr", .ndarray "<f8" [2, 2] c9data)]) :=
  ⟨by decide, by decide,
    (C9_ndarray_roundtrip "arr" "<f8" [2, 2] c9data (by decide) (by decide)
      c9bytes (by decide)).1⟩

/-- C7: the artifact is the binary numeric-array-preserving msgpack file
(`<base>.msgpack`) exactly when the response's actual declared Content-Type
(lowercased, as line 108 computes it) equals `application/msgpack-numpy`;
in every other case it is the indented-JSON file (`<base>.json`); and the
artifact filename embeds the predictor's self-reported name (spaces
sanitized to underscores, as line 89 does). -/
theorem C7_persistence_format (cfg : Config) (outputDir : List String)
    (kvs : List (JValue × JValue)) (nm : String)
    (hname : dictGet kvs (.str "predictor_name") = some (.str nm))
    (fmtActual : String) (jOk mOk : Bool) :
    getPredictorName (.map kvs) = .ok (sanitizeName nm) ∧
    (∀ p c pl, Event.persistMsgpack p c pl ∈
        (save_payload cfg outputDir (sanitizeName nm) (.map kvs) fmtActual jOk mOk).events
      → fmtActual = "application/msgpack-numpy") ∧
    (∀ p c pl, Event.persistJson p c pl ∈
        (save_payload cfg outputDir (sanitizeName nm) (.map kvs) fmtActual jOk mOk).events
      → fmtActual ≠ "application/msgpack-numpy") ∧
    (fmtActual = "application/msgpack-numpy" → mOk = true →
      ∀ c, packb (.map kvs) = some c →
      (save_payload cfg outputDir (sanitizeName nm) (.map kvs) fmtActual jOk mOk).events =
        [.persistMsgpack
          (outputDir ++ [cfg.outputFilenameBase ++ "_from_" ++ sanitizeName nm ++ ".msgpack"])
          c (.map kvs)]) ∧
    (fmtActual ≠ "application/msgpack-numpy" → jOk = true →
      ∀ c, jsonDumpIndent (.map kvs) 0 = some c →
      (save_payload cfg outputDir (sanitizeName nm) (.map kvs) fmtActual jOk mOk).events =
        [.persistJson
          (outputDir ++ [cfg.outputFilenameBase ++ "_from_" ++ sanitizeName nm ++ ".json"])
          c (.map kvs)]) ∧
    (∃ pre post, cfg.outputFilenameBase ++ "_from_" ++ sanitizeName nm ++ ".json" =
      pre ++ sanitizeName nm ++ post) ∧
    (∃ pre post, cfg.outputFilenameBase ++ "_from_" ++ sanitizeName nm ++ ".msgpack" =
      pre ++ sanitizeName nm ++ post) := by
  by_cases hfmt : fmtActual = "application/msgpack-numpy"
  · refine ⟨by simp [getPredictorName, hname], ?_, ?_, ?_, ?_, ?_, ?_⟩
    · intro p c pl _
      exact hfmt
    · intro p c pl hmem
      exfalso
      simp only [save_payload, hfmt, beq_self_eq_true, if_true] at hmem
      rcases hpk : packb (.map kvs) with _ | pk <;> rw [hpk] at hmem
      · simp at hmem
      · rcases mOk with _ | _ <;> simp_all
    · intro _ hm c hc
      simp [save_payload, hfmt, hc, hm]
    · intro hne
      exact absurd hfmt hne
    · exact ⟨cfg.outputFilenameBase ++ "_from_", ".json", rfl⟩
    · exact ⟨cfg.outputFilenameBase ++ "_from_", ".msgpack", rfl⟩
  · have hbeq : (fmtActual == "application/msgpack-numpy") = false := by
      simpa using hfmt
    refine ⟨by simp [getPredictorName, hname], ?_, ?_, ?_, ?_, ?_, ?_⟩
    · intro p c pl hmem
      exfalso
      simp only [save_payload, hbeq, Bool.false_eq_true, if_false] at hmem
      rcases hdp : jsonDumpIndent (.map kvs) 0 with _ | s <;> rw [hdp] at hmem
      · simp at hmem
      · rcases jOk with _ | _ <;> simp_all
    · intro p c pl _
      exact hfmt
    · intro he
      exact absurd he hfmt
    · intro _ hj c hc
      simp [save_payload, hbeq, hc, hj]
    · exact ⟨cfg.outputFilenameBase ++ "_from_", ".json", rfl⟩
    · exact ⟨cfg.outputFilenameBase ++ "_from_", ".msgpack", rfl⟩

def c7payload : JValue := .map [(.str "predictor_name", .str "Deep Model")]

def c7mpBytes : List Nat :=
  [129, 174, 112, 114, 101, 100, 105, 99, 116, 111, 114, 95, 110, 97, 109,
   101, 170, 68, 101, 101, 112, 32, 77, 111, 100, 101, 108]

def c7jsonStr : String := "\x7b\n    \"predictor_name\": \"Deep Model\"\n\x7d"

/-- Witness for C7: a payload self-reporting predictor name "Deep Model"
persisted once with a numpy Content-Type and once with a JSON one. -/
theorem C7_persistence_format_witness :
    getPredictorName (.map [(.str "predictor_name", .str "Deep Model")]) =
      .ok "Deep_Model" ∧
    (save_payload chr9Config ["out"] "Deep_Model" c7payload
        "application/msgpack-numpy" true true).events =
      [.persistMsgpack
        (["out"] ++ ["ORCA_TestChr9_predictions_chr9_sequence_coordinates_from_Deep_Model.msgpack"])
        c7mpBytes c7payload] ∧
    (save_payload chr9Config ["out"] "Deep_Model" c7payload
        "application/json" true true).events =
      [.persistJson
        (["out"] ++ ["ORCA_TestChr9_predictions_chr9_sequence_coordinates_from_Deep_Model.json"])
        c7jsonStr c7payload] := by
  have h := C7_persistence_format chr9Config ["out"]
    [(.str "predictor_name", .str "Deep Model")] "Deep Model" (by decide)
  refine ⟨?_, ?_, ?_⟩
  · have := (h "application/json" true true).1
    simpa using this
  · have := (h "application/msgpack-numpy" true true).2.2.2.1 rfl rfl c7mpBytes
      (by decide)
    simpa [c7payload] using this
  · have := (h "application/json" true true).2.2.2.2.1 (by decide) rfl c7jsonStr
      (by decide)
    simpa [c7payload] using this

theorem self_mem_pathAncestors (dir : List String) (h : dir ≠ []) :
    dir ∈ pathAncestors dir := by
  unfold pathAncestors
  refine List.mem_map.mpr ⟨dir.length - 1, ?_, ?_⟩
  · refine List.mem_range.mpr ?_
    have : dir.length ≠ 0 := fun hc => h (List.length_eq_zero.mp hc)
    omega
  · have hlen : dir.length - 1 + 1 = dir.length := by
      have : dir.length ≠ 0 := fun hc => h (List.length_eq_zero.mp hc)
      omega
    rw [hlen, List.take_length]

/-- C10: before loading input data or issuing any HTTP call, the run
ensures the output directory exists — creating it (with all ancestors)
when missing, leaving the filesystem untouched when present — and the
event trace starts with the optional mkdir followed by the data load, so
every network event comes later. -/
theorem C10_output_dir (cfg : Config) (env : RunEnv) (outputDir : List String)
    (hne : outputDir ≠ []) :
    outputDir ∈ (run_evaluator cfg env outputDir).fs ∧
    (outputDir ∉ env.fs →
      ∀ p ∈ pathAncestors outputDir, p ∈ (run_evaluator cfg env outputDir).fs) ∧
    (outputDir ∈ env.fs → (run_evaluator cfg env outputDir).fs = env.fs) ∧
    (∃ rest, (run_evaluator cfg env outputDir).events =
      (if outputDir ∈ env.fs then [] else [Event.mkdirOutput]) ++
        Event.loadData :: rest) := by
  refine ⟨?_, ?_, ?_, ?_⟩
  · by_cases hmem : outputDir ∈ env.fs
    · simp [run_evaluator, hmem]
    · simp only [run_evaluator, hmem, if_false]
      exact List.mem_append.mpr (Or.inl (self_mem_pathAncestors outputDir hne))
  · intro hmem p hp
    simp only [run_evaluator, hmem, if_false]
    exact List.mem_append.mpr (Or.inl hp)
  · intro hmem
    simp [run_evaluator, hmem]
  · by_cases hmem : outputDir ∈ env.fs
    · exact ⟨(run_core cfg env outputDir).1, by simp [run_evaluator, hmem]⟩
    · exact ⟨(run_core cfg env outputDir).1, by simp [run_evaluator, hmem]⟩

/-- Witness for C10 at a concrete nested output directory that does not
yet exist. -/
theorem C10_output_dir_witness :
    ["data", "run1"] ∈
      (run_evaluator chr9Config
        ⟨[], 0, .netError, .netError, true, true⟩ ["data", "run1"]).fs ∧
    ["data"] ∈
      (run_evaluator chr9Config
        ⟨[], 0, .netError, .netError, true, true⟩ ["data", "run1"]).fs := by
  have h := C10_output_dir chr9Config ⟨[], 0, .netError, .netError, true, true⟩
    ["data", "run1"] (by decide)
  exact ⟨h.1, h.2.1 (by decide) ["data"] (by decide)⟩

def isPersistEvent : Event → Bool
  | .persistJson _ _ _ => true
  | .persistMsgpack _ _ _ => true
  | _ => false

def isScoringEvent : Event → Bool
  | .scoring _ _ => true
  | _ => false

def c1FormatsResp : HttpResponse :=
  { statusCode := 200, contentTypeHeader := some "application/json",
    content := utf8Str "\x7b\x7d", text := "\x7b\x7d" }

def c1ErrorBody : String := "\x7b\"predictor_name\": \"P\", \"error\": []\x7d"

def c1ErrorResp : HttpResponse :=
  { statusCode := 500, contentTypeHeader := some "application/json",
    content := utf8Str c1ErrorBody, text := c1ErrorBody }

def c1Env : RunEnv :=
  { fs := [["out"]], numSequences := 3, formatsCall := .ok c1FormatsResp,
    predictCall := .httpError c1ErrorResp, jsonWriteOk := true,
    msgpackWriteOk := true }

/-- C1 (code bug): on the HTTP-error path the error body decodes fine and
the placeholder machinery is in place, but line 108 reads the local
`response`, which the `except HTTPError` path never bound — the run raises
`UnboundLocalError` before persistence, the generic handler exits 1, and no
artifact is ever written.  Shown here on a 500 response whose JSON error
body is decodable. -/
theorem C1_error_path_crashes_before_persisting :
    (deserialize_response c1ErrorResp "application/json").1 =
      .ok (.map [(.str "predictor_name", .str "P"), (.str "error", .arr [])]) ∧
    (run_evaluator chr9Config c1Env ["out"]).outcome =
      .error (.unboundLocal "response") ∧
    (run_evaluator chr9Config c1Env ["out"]).events.all
      (fun e => !isPersistEvent e) = true ∧
    (evaluator_main chr9Config c1Env ["out"]).exitCode = 1 :=
  ⟨by decide, by decide, by decide, by decide⟩

def c2ErrorBody : String :=
  "\x7b\"predictor_name\": \"Q\", \"error\": [\x7b\"server_error\": \"boom\"\x7d]\x7d"

def c2ErrorResp : HttpResponse :=
  { statusCode := 500, contentTypeHeader := some "application/json",
    content := utf8Str c2ErrorBody, text := c2ErrorBody }

def c2Env : RunEnv :=
  { fs := [["outdir"]], numSequences := 2, formatsCall := .ok c1FormatsResp,
    predictCall := .httpError c2ErrorResp, jsonWriteOk := true,
    msgpackWriteOk := true }

/-- C2 (code bug): with a 500 response carrying a decodable JSON error
body, scoring is indeed never invoked, but the run does not end
successfully with a persisted error artifact: it crashes on the unbound
`response` local at line 108, exits 1, and persists nothing. -/
theorem C2_error_scoring_skipped_but_run_crashes :
    (deserialize_response c2ErrorResp "application/json").1 =
      .ok (.map [(.str "predictor_name", .str "Q"),
        (.str "error", .arr [.map [(.str "server_error", .str "boom")]])]) ∧
    (run_evaluator chr9Config c2Env ["outdir"]).events.all
      (fun e => !isScoringEvent e) = true ∧
    (run_evaluator chr9Config c2Env ["outdir"]).events.all
      (fun e => !isPersistEvent e) = true ∧
    (run_evaluator chr9Config c2Env ["outdir"]).outcome =
      .error (.unboundLocal "response") ∧
    (evaluator_main chr9Config c2Env ["outdir"]).exitCode = 1 :=
  ⟨by decide, by decide, by decide, by decide, by decide⟩

def c6OkBody : String :=
  "\x7b\"predictor_name\": \"P\", \"prediction_tasks\": []\x7d"

def c6OkResp : HttpResponse :=
  { statusCode := 200, contentTypeHeader := some "application/json",
    content := utf8Str c6OkBody, text := c6OkBody }

def c6Env : RunEnv :=
  { fs := [["out"]], numSequences := 0, formatsCall := .ok c1FormatsResp,
    predictCall := .ok c6OkResp, jsonWriteOk := false, msgpackWriteOk := true }

/-- C6 (code bug): when writing the artifact raises `IOError`, the run does
abort before scoring and prints the categorized FATAL message to stderr,
but the handler then `return`s normally, so `__main__` prints success and
the process exits 0 — not the non-zero exit the claim requires. -/
theorem C6_write_failure_exits_zero :
    (run_evaluator chr9Config c6Env ["out"]).events.contains
      (.stderrLine (fatalSaveMsg
        ["out",
         "ORCA_TestChr9_predictions_chr9_sequence_coordinates_from_P.json"])) = true ∧
    (run_evaluator chr9Config c6Env ["out"]).events.all
      (fun e => !isScoringEvent e) = true ∧
    (run_evaluator chr9Config c6Env ["out"]).events.all
      (fun e => !isPersistEvent e) = true ∧
    (run_evaluator chr9Config c6Env ["out"]).outcome = .ok () ∧
    (evaluator_main chr9Config c6Env ["out"]).exitCode = 0 :=
  ⟨by decide, by decide, by decide, by decide, by decide⟩
